import Mathlib

/-!
Verification development for the barcode-scanner application.

Strings manipulated by the Rust source are modelled as `List Char`; all of
the modelled inputs are ASCII, where byte indexing and character indexing
coincide.  Fallible Rust functions returning `eyre::Result` are modelled with
`Except`, and a Rust panic (`unwrap`, out-of-bounds slice) is modelled as a
distinguished outcome separate from an ordinary returned error.
-/

namespace BarcodeScanner

/-! ## String helpers mirroring the Rust standard library -/

/-- The Unicode `White_Space` code points, as used by Rust's
`char::is_whitespace` (and hence `str::trim`). -/
def isRustWhitespace (c : Char) : Bool :=
  c.toNat ∈ [0x09, 0x0A, 0x0B, 0x0C, 0x0D, 0x20, 0x85, 0xA0, 0x1680,
    0x2000, 0x2001, 0x2002, 0x2003, 0x2004, 0x2005, 0x2006, 0x2007,
    0x2008, 0x2009, 0x200A, 0x2028, 0x2029, 0x202F, 0x205F, 0x3000]

/-- Rust `str::trim`: drop whitespace from both ends. -/
def rustTrim (l : List Char) : List Char :=
  ((l.dropWhile isRustWhitespace).reverse.dropWhile isRustWhitespace).reverse

/-- Rust `str::strip_prefix`: remove a leading pattern, or `none` when the
string does not start with it. -/
def stripLead : List Char → List Char → Option (List Char)
  | [], rest => some rest
  | _, [] => none
  | p :: ps, c :: cs => if c = p then stripLead ps cs else none

/-- The literal scheme marker `shc:/`. -/
def shcLead : List Char := ['s', 'h', 'c', ':', '/']

/-! ## SHC stage 2: numeric-pair expansion (`decode_qr_data`) -/

/-- Rust's ASCII digit test, as used by `u8::from_str` (`b'0'..=b'9'`). -/
def isDig (c : Char) : Bool :=
  48 ≤ c.toNat && c.toNat ≤ 57

/-- Rust `str::parse::<u8>` restricted to a two-character chunk, as produced by
the numeric-pair loop in `decode_qr_data`.  Rust's unsigned integer parsing
accepts an optional leading `+` sign, so both `"dd"` and `"+d"` chunks parse;
two digits are at most 99, so no overflow is possible. -/
def parseU8Pair (a b : Char) : Except String Nat :=
  if isDig a && isDig b then
    .ok ((a.toNat - 48) * 10 + (b.toNat - 48))
  else if a = '+' && isDig b then
    .ok (b.toNat - 48)
  else
    .error "invalid digit found in string"

/-- Byte length of a character's UTF-8 encoding (`char::len_utf8`). -/
def utf8Len (c : Char) : Nat :=
  if c.toNat < 0x80 then 1
  else if c.toNat < 0x800 then 2
  else if c.toNat < 0x10000 then 3
  else 4

/-- `str::len` of a character list: its length in UTF-8 bytes. -/
def utf8ByteLen (l : List Char) : Nat :=
  (l.map utf8Len).sum

/-- Outcome of `decode_qr_data`: the expanded payload, an ordinary returned
error, or a Rust panic (byte-slicing `&data[pos*2..=pos*2+1]` off a
character boundary). -/
inductive QrOutcome where
  | ok (payload : List Char)
  | err (msg : String)
  | panicked

/-- The loop of `decode_qr_data` over the UTF-8 bytes of the remaining
string: each iteration byte-slices a two-byte chunk at an even byte offset
and parses it with `parse::<u8>`.  A chunk's start is always a character
boundary (byte 0, or the checked end of the previous chunk), so the cases
are: two one-byte characters form a chunk handled by `parseU8Pair`; a
two-byte character is a chunk by itself whose bytes (`0xC2–0xDF`,
`0x80–0xBF`) fail the integer parse with an ordinary error; and a chunk
whose end byte falls inside a character — a one-byte character followed by a
multi-byte one, or a character of three or more bytes — panics at the slice
before any parse.  The caller has checked the byte length to be even, so the
lone-trailing-one-byte case is unreachable. -/
def parsePairs : List Char → QrOutcome
  | [] => .ok []
  | c :: rest =>
    if utf8Len c = 1 then
      match rest with
      | [] => .err "unreachable odd chunk"
      | c2 :: rest2 =>
        if utf8Len c2 = 1 then
          match parseU8Pair c c2 with
          | .error e => .err e
          | .ok n =>
            match parsePairs rest2 with
            | .ok tail => .ok (Char.ofNat (n + 45) :: tail)
            | r => r
        else .panicked
    else if utf8Len c = 2 then .err "invalid digit found in string"
    else .panicked

/-- `SmartHealthCardDecoder::decode_qr_data`: trim the input, strip the
`shc:/` scheme, require an even remaining *byte* length (the source checks
`data.len()` on a `&str`), and expand the numeric pairs. -/
def decodeQrData (input : List Char) : QrOutcome :=
  match stripLead shcLead (rustTrim input) with
  | none => .err "missing SHC prefix"
  | some data =>
    if utf8ByteLen data % 2 = 0 then parsePairs data
    else .err "data length must be even"

/-- Spec-side description of stage 2 (for comparison with `decodeQrData`):
each consecutive 2-digit decimal pair `nn` is mapped to `chr(nn + 45)`. -/
def specNumericExpand : List Char → List Char
  | a :: b :: rest =>
    Char.ofNat ((a.toNat - 48) * 10 + (b.toNat - 48) + 45) :: specNumericExpand rest
  | _ => []

/-- The numeric-pair encoding used by SMART Health Cards: a character of code
`c` (45 ≤ c ≤ 144) becomes the two decimal digits of `c - 45`. -/
def encodePair (c : Char) : List Char :=
  [Char.ofNat (48 + (c.toNat - 45) / 10), Char.ofNat (48 + (c.toNat - 45) % 10)]

/-- Encode a whole character sequence through the numeric-pair scheme and add
the `shc:/` scheme marker. -/
def encodeShc (l : List Char) : List Char :=
  shcLead ++ l.flatMap encodePair

/-- A pair accepted by `parse::<u8>`: two digits, or a plus sign and a digit. -/
def okPair (a b : Char) : Bool :=
  (isDig a && isDig b) || (a = '+' && isDig b)

/-- Whether some aligned pair of the string is rejected by `parse::<u8>`. -/
def hasBadPair : List Char → Bool
  | a :: b :: rest => !okPair a b || hasBadPair rest
  | _ => false

/-! ## JSON values and the JWS header

The decode pipeline orchestrates several external crates (`serde_json`,
`base64`, `flate2`, `jsonwebtoken`, the SQLite pool).  Those collaborators are
kept abstract in an `Env` record of functions; the pipeline itself — the code
of `SmartHealthCardDecoder::decode` — is embedded concretely over that
record. -/

/-- `serde_json::Value`. -/
inductive Json where
  | null
  | bool (b : Bool)
  | num (n : Int)
  | str (s : String)
  | arr (elems : List Json)
  | obj (fields : List (String × Json))

/-- `serde_json::Value::index` with a string key: member lookup on objects,
`Null` for a missing member or a non-object. -/
def Json.index (j : Json) (k : String) : Json :=
  match j with
  | .obj fields =>
    match fields.find? (fun f => f.1 = k) with
    | some f => f.2
    | none => .null
  | _ => .null

/-- `serde_json::Value::as_str`. -/
def Json.asStr : Json → Option String
  | .str s => some s
  | _ => none

/-- `jsonwebtoken::Algorithm`, with `ES256` (the pinned algorithm of the
verify call) distinguished. -/
inductive JwsAlg where
  | ES256
  | other
deriving DecidableEq

/-- The fields of `jsonwebtoken::Header` used by the pipeline: the required
`alg` and the optional `kid`. -/
structure JwsHeader where
  alg : JwsAlg
  kid : Option String

/-- Opaque JWK key material (`jsonwebtoken::jwk::Jwk`). -/
abbrev Jwk := Nat

/-- Opaque decoding key (`jsonwebtoken::DecodingKey`). -/
abbrev JwKey := Nat

/-- The `VciIssuerMeta.jwk_set` contents reported by an on-demand issuer
refresh: each JWK with its optional `kid` (`Jwk.common.key_id`). -/
structure RefreshMeta where
  jwkSet : Option (List (Option String × Jwk))

/-- `JwkSet::find`: the first key whose `key_id` equals the wanted `kid`. -/
def findJwk (keys : List (Option String × Jwk)) (kid : String) : Option Jwk :=
  (keys.find? (fun k => k.1 = some kid)).map (fun k => k.2)

/-- Issuer row columns read back at the end of the pipeline
(`SELECT iss, name, website, canonical_iss FROM vci_issuer`). -/
structure VciIssuerRec where
  iss : String
  name : String
  website : Option String
  canonicalIss : Option String

/-- Outcome of one decoder call: a decoded value, an ordinary returned error
(chain fallthrough), or a Rust panic. -/
inductive DOutcome (α : Type) where
  | ok (d : α)
  | err
  | panicked

/-- External collaborators of the decoders, as functions.  Every theorem about
the pipeline quantifies over this record, so it covers the behaviour of the
real crates in particular. -/
structure Env where
  /-- `jsonwebtoken::decode_header`. -/
  decodeHeader : List Char → Except Unit JwsHeader
  /-- `base64::URL_SAFE_NO_PAD.decode`. -/
  b64decode : List Char → Except Unit (List Nat)
  /-- `serde_json::from_slice` on bytes. -/
  jsonFromSlice : List Nat → Except Unit Json
  /-- `serde_json::from_str` on text. -/
  jsonFromStr : List Char → Except Unit Json
  /-- `flate2` raw-DEFLATE decode followed by `read_to_string`. -/
  inflate : List Nat → Except Unit (List Char)
  /-- `SELECT data FROM vci_issuer_key WHERE key_id = $1` (note: keyed by
  `kid` only, with no issuer constraint). -/
  keyLookup : String → Option Jwk
  /-- `jsonwebtoken::DecodingKey::from_jwk`. -/
  fromJwk : Jwk → Except Unit JwKey
  /-- `jsonwebtoken::crypto::verify sig message key algorithm`; `Ok false` is
  a signature that does not verify, `Err` a malformed signature. -/
  verify : List Char → List Char → JwKey → JwsAlg → Except Unit Bool
  /-- `SELECT name FROM vci_issuer WHERE iss = $1`. -/
  issuerName : String → Option String
  /-- The on-demand `Self::update_vci_issuer(client, pool, issuer, false)`
  call made when the `kid` is not cached, returning the issuer meta.  It can
  return an error (propagated by the caller's `?`) or panic — a fetched JWKS
  key without a `kid` hits `key.common.key_id.as_deref().unwrap()`. -/
  updateIssuer : String → String → DOutcome RefreshMeta
  /-- `serde_json::from_value::<Vec<FhirBundleEntry>>`; entries are kept as
  raw JSON values. -/
  parseEntries : Json → Except Unit (List Json)
  /-- `SELECT iss, name, website, canonical_iss FROM vci_issuer WHERE iss = $1`. -/
  issuerRow : String → Option VciIssuerRec
  /-- `aamva::parse_barcode` (opaque parsed data). -/
  aamvaParse : List Char → Except Unit Nat
  /-- `serde_json::to_value(data.subfiles)`. -/
  aamvaToValue : Nat → Except Unit Json
  /-- `url::Url::parse`, exposing the parsed scheme. -/
  urlParse : List Char → Except Unit String

/-- `str::split('.')`. -/
def splitOnDot : List Char → List (List Char)
  | [] => [[]]
  | c :: rest =>
    if c = '.' then [] :: splitOnDot rest
    else
      match splitOnDot rest with
      | [] => [[c]]
      | p :: ps => (c :: p) :: ps

/-- `str::rfind('.')`: index of the last dot, if any. -/
def rfindDot : List Char → Option Nat
  | [] => none
  | c :: rest =>
    match rfindDot rest with
    | some i => some (i + 1)
    | none => if c = '.' then some 0 else none

/-- The record returned by a successful SHC decode (the fields of
`SmartHealthCardData` established at decode time; the random UUID and the
CVX rendering cache are omitted). -/
structure ShcData where
  verified : Bool
  issuer : Option VciIssuerRec
  relevantData : List Json
  rawData : Json

/-- `SmartHealthCardDecoder::decompress_data`: base64url-decode the header
part, parse it as JSON, and either inflate the base64url-decoded payload
(when `zip` is `"DEF"`) or use the payload part text as-is. -/
def decompressData (env : Env) (p0 p1 : List Char) : Except Unit (List Char) :=
  match env.b64decode p0 with
  | .error e => .error e
  | .ok headerBytes =>
    match env.jsonFromSlice headerBytes with
    | .error e => .error e
    | .ok headerData =>
      if (headerData.index "zip").asStr = some "DEF" then
        match env.b64decode p1 with
        | .error e => .error e
        | .ok mainData => env.inflate mainData
      else
        .ok p1

/-- `SmartHealthCardDecoder::decode`, stage by stage in source order.  The
`DOutcome.panicked` results correspond to the byte-slice panic inside
`decode_qr_data`, to `header.kid.unwrap()`, to
`qr_data.rfind('.').expect(..)`, and to a panic inside the on-demand
`update_vci_issuer` call. -/
def shcDecode (env : Env) (input : List Char) : DOutcome ShcData :=
  match decodeQrData input with
  | .err _ => .err
  | .panicked => .panicked
  | .ok qrData =>
  match env.decodeHeader qrData with
  | .error _ => .err
  | .ok header =>
  match splitOnDot qrData with
  | [p0, p1, p2] =>
    (match decompressData env p0 p1 with
    | .error _ => .err
    | .ok decompressed =>
    match env.jsonFromStr decompressed with
    | .error _ => .err
    | .ok data =>
    match (data.index "iss").asStr with
    | none => .err
    | some iss =>
    match header.kid with
    | none => .panicked
    | some kid =>
    let jwk := env.keyLookup kid
    match rfindDot qrData with
    | none => .panicked
    | some dotIdx =>
    let message := qrData.take dotIdx
    let verifiedResult : DOutcome Bool :=
      match jwk with
      | some jwk =>
        match env.fromJwk jwk with
        | .error _ => .err
        | .ok key =>
          match env.verify p2 message key JwsAlg.ES256 with
          | .error _ => .err
          | .ok b => .ok b
      | none =>
        match env.updateIssuer iss ((env.issuerName iss).getD "Unknown Issuer") with
        | .err => .err
        | .panicked => .panicked
        | .ok meta =>
          match meta.jwkSet with
          | some keys =>
            match findJwk keys kid with
            | some key =>
              match env.fromJwk key with
              | .error _ => .err
              | .ok key =>
                match env.verify p2 message key header.alg with
                | .error _ => .err
                | .ok b => .ok b
            | none => .ok false
          | none => .ok false
    match verifiedResult with
    | .err => .err
    | .panicked => .panicked
    | .ok verified =>
    match env.parseEntries ((((data.index "vc").index "credentialSubject").index
        "fhirBundle").index "entry") with
    | .error _ => .err
    | .ok relevantData =>
      .ok { verified := verified
            issuer := env.issuerRow iss
            relevantData := relevantData
            rawData := data })
  | _ => .err

/-! ## The decoder chain (`BarcodeDecoders`) -/

/-- The closed set of decoded-record variants produced by the four decoders
(`BoxedBarcodeData`). -/
inductive BData where
  | shc (d : ShcData)
  | aamva (parsed : Nat) (raw : Json)
  | link (scheme : String)
  | generic (data : List Char)

/-- `AamvaDecoder::decode`: parse with the `aamva` crate, serialize the
subfiles to JSON, and wrap the result. -/
def aamvaDecode (env : Env) (input : List Char) : DOutcome BData :=
  match env.aamvaParse input with
  | .error _ => .err
  | .ok parsed =>
    match env.aamvaToValue parsed with
    | .error _ => .err
    | .ok raw => .ok (.aamva parsed raw)

/-- `LinkDecoder::decode`: parse as a URL and require an `http`/`https`
scheme. -/
def linkDecode (env : Env) (input : List Char) : DOutcome BData :=
  match env.urlParse input with
  | .error _ => .err
  | .ok scheme =>
    if scheme = "http" ∨ scheme = "https" then .ok (.link scheme) else .err

/-- `GenericDataDecoder::decode`: always succeeds with the raw input. -/
def genericDecode (input : List Char) : DOutcome BData :=
  .ok (.generic input)

/-- `SmartHealthCardDecoder::decode` as a chain member. -/
def shcChainDecode (env : Env) (input : List Char) : DOutcome BData :=
  match shcDecode env input with
  | .ok d => .ok (.shc d)
  | .err => .err
  | .panicked => .panicked

/-- The decoder list built by `BarcodeDecoders::new`, in construction order:
SHC, AAMVA, Link, Generic, each paired with its `name()`. -/
def barcodeDecoders (env : Env) : List (String × (List Char → DOutcome BData)) :=
  [("SMART Health Card", shcChainDecode env),
   ("AAMVA", aamvaDecode env),
   ("Link", linkDecode env),
   ("Generic Data", genericDecode)]

/-- Result of `BarcodeDecoders::decode`: the name and record of the first
enabled decoder that succeeded, `nothing` when every enabled decoder failed,
or a propagated panic. -/
inductive ChainResult where
  | found (name : String) (d : BData)
  | nothing
  | panicked

/-- The loop of `BarcodeDecoders::decode`: walk the decoders in order,
skipping any whose name is in the disabled set before invoking it, returning
the first success, and treating a returned error as fallthrough. -/
def chainDecode (decoders : List (String × (List Char → DOutcome BData)))
    (disabled : List String) (input : List Char) : ChainResult :=
  match decoders with
  | [] => .nothing
  | (name, dec) :: rest =>
    if name ∈ disabled then chainDecode rest disabled input
    else
      match dec input with
      | .ok d => .found name d
      | .err => chainDecode rest disabled input
      | .panicked => .panicked

/-! ## Framing engines (`barcode_scanner.rs`)

Each transport's select loop is modelled as a fold of a step function over a
sequence of the events the `tokio::select!` can wake on.  Rust slice-index
panics are modelled by running the fold in `Except`. -/

/-- The fixed keycode-to-character table `KEY_LOOKUP`. -/
def kbKeyLookup (k : Nat) : Option Char :=
  match k with
  | 4 => some 'a' | 5 => some 'b' | 6 => some 'c' | 7 => some 'd'
  | 8 => some 'e' | 9 => some 'f' | 10 => some 'g' | 11 => some 'h'
  | 12 => some 'i' | 13 => some 'j' | 14 => some 'k' | 15 => some 'l'
  | 16 => some 'm' | 17 => some 'n' | 18 => some 'o' | 19 => some 'p'
  | 20 => some 'q' | 21 => some 'r' | 22 => some 's' | 23 => some 't'
  | 24 => some 'u' | 25 => some 'v' | 26 => some 'w' | 27 => some 'x'
  | 28 => some 'y' | 29 => some 'z' | 30 => some '1' | 31 => some '2'
  | 32 => some '3' | 33 => some '4' | 34 => some '5' | 35 => some '6'
  | 36 => some '7' | 37 => some '8' | 38 => some '9' | 39 => some '0'
  | 40 => some '\n'
  | _ => none

/-- `ModifierKeys::ShiftLeft | ModifierKeys::ShiftRight` as a bitmask:
`0b00000010 | 0b00100000`. -/
def kbShiftMask : Nat := 0x22

/-- `mod_keys.contains(ModifierKeys::ShiftLeft | ModifierKeys::ShiftRight)`.
`enumflags2::BitFlags::contains` tests that *all* flags of the argument are
present: `self.bits() & other.bits() == other.bits()`. -/
def kbShiftTest (modByte : Nat) : Bool :=
  modByte &&& kbShiftMask = kbShiftMask

/-- The report-processing arm of `hid_scanner_keyboard`: iterate the keycodes
in `buf[2..size]`, skip zero and unmapped keycodes, uppercase when the
modifier test passes, and append to the input buffer. -/
def kbProcessReport (inp : List Char) (buf : List Nat) (size : Nat) : List Char :=
  ((buf.take size).drop 2).foldl
    (fun acc keyByte =>
      if keyByte = 0 then acc
      else
        match kbKeyLookup keyByte with
        | none => acc
        | some key =>
          acc ++ [if kbShiftTest buf.headI then key.toUpper else key])
    inp

/-- Events the keyboard-HID select loop can wake on. -/
inductive KbEvent where
  | tick
  | closed
  | cancelled
  | readErr
  | report (buf : List Nat) (size : Nat)

/-- State of the keyboard-HID loop: the accumulated input, the messages sent
so far, and whether the loop has exited. -/
structure KbState where
  inp : List Char := []
  out : List (List Char) := []
  stopped : Bool := false

/-- One iteration of the `hid_scanner_keyboard` select loop.  A timer tick
flushes the buffer only when it is non-empty; consumer close, cancellation
and a read error all end the loop. -/
def kbStep (s : KbState) (e : KbEvent) : KbState :=
  if s.stopped then s
  else
    match e with
    | .tick =>
      if s.inp = [] then s
      else { s with inp := [], out := s.out ++ [s.inp] }
    | .closed => { s with stopped := true }
    | .cancelled => { s with stopped := true }
    | .readErr => { s with stopped := true }
    | .report buf size => { s with inp := kbProcessReport s.inp buf size }

/-- Run the keyboard-HID loop over a sequence of events. -/
def kbRun (events : List KbEvent) : KbState :=
  events.foldl kbStep {}

/-- Events the serial select loop can wake on; a data event carries the bytes
read from the port. -/
inductive SerEvent where
  | tick
  | closed
  | cancelled
  | readErr
  | data (bytes : List Nat)

/-- State of the serial loop. -/
structure SerState where
  inp : List Char := []
  out : List (List Char) := []
  stopped : Bool := false

/-- One iteration of the `serial_scanner` select loop; `lossy` models
`String::from_utf8_lossy` on the bytes read. -/
def serStep (lossy : List Nat → List Char) (s : SerState) (e : SerEvent) : SerState :=
  if s.stopped then s
  else
    match e with
    | .tick =>
      if s.inp = [] then s
      else { s with inp := [], out := s.out ++ [s.inp] }
    | .closed => { s with stopped := true }
    | .cancelled => { s with stopped := true }
    | .readErr => { s with stopped := true }
    | .data bytes =>
      if bytes.length = 0 then s
      else { s with inp := s.inp ++ lossy bytes }

/-- Run the serial loop over a sequence of events. -/
def serRun (lossy : List Nat → List Char) (events : List SerEvent) : SerState :=
  events.foldl (serStep lossy) {}

/-- Rust slice indexing `l[a..=b]`: defined when `a ≤ b + 1 ∧ b + 1 ≤ l.length`,
a panic otherwise. -/
def sliceIncl (l : List Nat) (a b : Nat) : Option (List Nat) :=
  if a ≤ b + 1 ∧ b + 1 ≤ l.length then some ((l.take (b + 1)).drop a)
  else none

/-- Events the POS-HID select loop can wake on; an input event carries the
64-byte report buffer. -/
inductive PosEvent where
  | closed
  | cancelled
  | readErr
  | input (buf : List Nat)

/-- State of the POS-HID loop; messages are byte strings (the source converts
them with `from_utf8_lossy` when sending). -/
structure PosState where
  inp : List Nat := []
  out : List (List Nat) := []
  stopped : Bool := false
deriving DecidableEq

/-- One iteration of the `hid_scanner_pos` select loop.  `buf[0]` is the
declared length; the first report of a message skips 3 header bytes
(`buf[3..=data_len]`), continuation reports skip 1 (`buf[1..=data_len]`); a
declared length other than 63 flushes the buffer.  An invalid slice range is
a panic, modelled by `Except.error`. -/
def posStep (s : PosState) (e : PosEvent) : Except Unit PosState :=
  if s.stopped then .ok s
  else
    match e with
    | .closed => .ok { s with stopped := true }
    | .cancelled => .ok { s with stopped := true }
    | .readErr => .ok { s with stopped := true }
    | .input buf =>
      let dataLen := buf.headI
      match sliceIncl buf (if s.inp = [] then 3 else 1) dataLen with
      | none => .error ()
      | some usefulBytes =>
        let inp := s.inp ++ usefulBytes
        if dataLen ≠ 63 then .ok { s with inp := [], out := s.out ++ [inp] }
        else .ok { s with inp := inp }

/-- Run the POS-HID loop from a given state; `Except.error` is a panic of the
loop body. -/
def posRunFrom (s : PosState) : List PosEvent → Except Unit PosState
  | [] => .ok s
  | e :: rest =>
    match posStep s e with
    | .error x => .error x
    | .ok s2 => posRunFrom s2 rest

/-- Run the POS-HID loop over a sequence of events. -/
def posRun (events : List PosEvent) : Except Unit PosState :=
  posRunFrom {} events

/-- The payload a report contributes, per the spec: after the declared length
byte `L = buf[0]`, take bytes up to index `L`, skipping 3 header bytes for the
first report of a message and 1 for a continuation. -/
def posPayload (first : Bool) (buf : List Nat) : List Nat :=
  (buf.take (buf.headI + 1)).drop (if first then 3 else 1)

/-- Spec-side description of the POS framing: concatenate report payloads in
order, emitting (and restarting) a message at every report whose declared
length is not 63.  A trailing unterminated message is not emitted. -/
def specPosMessages (first : Bool) (acc : List Nat) : List (List Nat) → List (List Nat)
  | [] => []
  | buf :: rest =>
    let acc2 := acc ++ posPayload first buf
    if buf.headI ≠ 63 then acc2 :: specPosMessages true [] rest
    else specPosMessages false acc2 rest

/-- Reports on which the POS handler does not panic: 64-byte buffers, declared
length at most 63, and at least 2 for the first report of each message. -/
def posValid (first : Bool) : List (List Nat) → Bool
  | [] => true
  | buf :: rest =>
    buf.length = 64 && buf.headI ≤ 63 && (!first || 2 ≤ buf.headI) &&
      posValid (buf.headI ≠ 63) rest

/-! ## SHC key directory (`update_vci_issuer` / `save_vci_issuer`)

The SQLite tables `vci_issuer` and `vci_issuer_key` are modelled as lists of
rows, with the issuer URL standing in for the surrogate row id (the `iss`
column is unique).  Timestamps are seconds.  The network fetch of an issuer's
JWKS is a parameter of the transition: a network error, an invalid-JSON
response, or a key set. -/

/-- `VciIssuer`, one entry of the remote directory document. -/
structure VciIssuer where
  iss : String
  name : String
  website : Option String := none
  canonicalIss : Option String := none
deriving DecidableEq

/-- A `vci_issuer` table row. -/
structure IssuerRow where
  iss : String
  name : String
  website : Option String
  canonicalIss : Option String
  error : Bool
  updatedAt : Nat
deriving DecidableEq

/-- A `vci_issuer_key` table row (issuer id, `key_id`, opaque JWK data). -/
structure KeyRow where
  issuerId : String
  keyId : String
  data : Jwk
deriving DecidableEq

/-- The persistent store touched by the key-directory refresh. -/
structure Db where
  issuers : List IssuerRow := []
  keys : List KeyRow := []
deriving DecidableEq

/-- `time::Duration::days(7)` in seconds. -/
def sevenDays : Nat := 7 * 86400

/-- Number of key rows stored for an issuer: the
`count(DISTINCT vci_issuer_key.id)` of the lookup query. -/
def keyCount (db : Db) (iss : String) : Nat :=
  (db.keys.filter (fun k => k.issuerId = iss)).length

/-- `SmartHealthCardDecoder::save_vci_issuer`: upsert the issuer row keyed on
`iss`, setting `updated_at` to the current timestamp and `error` to the given
flag; returns the row id (modelled by `iss`). -/
def saveVciIssuer (db : Db) (issuer : VciIssuer) (error : Bool) (now : Nat) :
    Db × String :=
  let row : IssuerRow :=
    { iss := issuer.iss, name := issuer.name, website := issuer.website,
      canonicalIss := issuer.canonicalIss, error := error, updatedAt := now }
  if db.issuers.any (fun r => r.iss = issuer.iss) then
    ({ db with issuers := db.issuers.map (fun r => if r.iss = issuer.iss then row else r) },
      issuer.iss)
  else
    ({ db with issuers := db.issuers ++ [row] }, issuer.iss)

/-- The `INSERT .. ON CONFLICT (vci_issuer_id, key_id) DO UPDATE` of one key
row. -/
def upsertKey (db : Db) (issuerId keyId : String) (data : Jwk) : Db :=
  let row : KeyRow := { issuerId := issuerId, keyId := keyId, data := data }
  if db.keys.any (fun k => k.issuerId = issuerId ∧ k.keyId = keyId) then
    { db with keys :=
        db.keys.map (fun k => if k.issuerId = issuerId ∧ k.keyId = keyId then row else k) }
  else
    { db with keys := db.keys ++ [row] }

/-- Outcome of fetching `<iss>/.well-known/jwks.json`: a request error, a
response that is not valid JWKS JSON, or the returned keys (each with its
optional `kid`). -/
inductive FetchOutcome where
  | netErr
  | badJson
  | fetched (keys : List (Option String × Jwk))

/-- The `VciIssuerMeta` summary returned for one issuer. -/
structure VciIssuerMeta where
  name : String
  iss : String
  error : Bool
  keys : Nat
  jwkSet : Option (List (Option String × Jwk))
deriving DecidableEq

/-- The fetch-and-persist tail of `update_vci_issuer`, reached when the
cached row is absent, stale, or bypassed.  A fetch failure upserts the issuer
row with `error = true` and returns normally; a successful fetch upserts the
issuer row and every returned key in one transaction.  A fetched key without
a `kid` hits `key.common.key_id.as_deref().unwrap()`: the panic aborts the
transaction, so the store is unchanged (`Except.error`). -/
def updateGo (issuer : VciIssuer) (now : Nat) (fetch : FetchOutcome) (db : Db)
    (meta : VciIssuerMeta) : Except Unit (Db × VciIssuerMeta) :=
  match fetch with
  | .netErr => .ok ((saveVciIssuer db issuer true now).1, { meta with error := true })
  | .badJson => .ok ((saveVciIssuer db issuer true now).1, { meta with error := true })
  | .fetched keySet =>
    let meta := { meta with keys := keySet.length }
    if keySet.any (fun k => k.1 = none) then .error ()
    else
      let saved := saveVciIssuer db issuer false now
      let db2 := keySet.foldl
        (fun d k => upsertKey d saved.2 (k.1.getD "") k.2) saved.1
      .ok (db2, { meta with jwkSet := some keySet })

/-- `SmartHealthCardDecoder::update_vci_issuer` as a transition on the store:
look up the cached row, short-circuit on fresh data (unless the cache is
bypassed), otherwise fetch and persist via `updateGo`. -/
def updateVciIssuer (db : Db) (issuer : VciIssuer) (ignoreCache : Bool)
    (now : Nat) (fetch : FetchOutcome) : Except Unit (Db × VciIssuerMeta) :=
  let meta0 : VciIssuerMeta :=
    { name := issuer.name, iss := issuer.iss, error := false, keys := 0,
      jwkSet := none }
  match db.issuers.find? (fun r => r.iss = issuer.iss) with
  | none => updateGo issuer now fetch db meta0
  | some r =>
    if ignoreCache ∨ now - r.updatedAt > sevenDays then
      updateGo issuer now fetch db { meta0 with keys := keyCount db issuer.iss }
    else
      .ok (db, { meta0 with error := r.error, keys := keyCount db issuer.iss })

/-- The per-issuer portion of `update_vci_issuers`: every issuer of the
directory document is refreshed and its meta collected.  The source runs the
fetches with `buffer_unordered(4)`; each issuer's rows are keyed by its own
URL, so the store transitions are modelled in list order. -/
def runRefreshFrom (ignoreCache : Bool) (now : Nat) (db : Db)
    (metas : List VciIssuerMeta) :
    List (VciIssuer × FetchOutcome) → Except Unit (Db × List VciIssuerMeta)
  | [] => .ok (db, metas)
  | p :: rest =>
    match updateVciIssuer db p.1 ignoreCache now p.2 with
    | .error x => .error x
    | .ok step => runRefreshFrom ignoreCache now step.1 (metas ++ [step.2]) rest

/-- The per-issuer loop of `update_vci_issuers`. -/
def runRefresh (db : Db) (issuers : List (VciIssuer × FetchOutcome))
    (ignoreCache : Bool) (now : Nat) : Except Unit (Db × List VciIssuerMeta) :=
  runRefreshFrom ignoreCache now db [] issuers

/-- The issuer's row (as found by the lookup query) was updated within the
7-day freshness window at time `now`. -/
def issuerFresh (db : Db) (iss : String) (now : Nat) : Bool :=
  match db.issuers.find? (fun r => r.iss = iss) with
  | some r => !decide (now - r.updatedAt > sevenDays)
  | none => false

/-- The source's condition under which `update_vci_issuer` proceeds to the
JWKS fetch instead of short-circuiting on cached data. -/
def refreshAttempted (db : Db) (iss : String) (ignoreCache : Bool) (now : Nat) : Bool :=
  match db.issuers.find? (fun r => r.iss = iss) with
  | none => true
  | some r => ignoreCache || decide (now - r.updatedAt > sevenDays)

/-! ## Concrete instances used by witnesses and counterexamples

The environments fix the behaviour of the external collaborators at the
handful of values a concrete run visits; every field not reached by the run
is an error.  Modelled from the spec at those points: base64url and JSON
decoding of the concrete header and payload parts, per §4.4. -/

/-- An environment in which every external collaborator fails. -/
def envErr : Env where
  decodeHeader := fun _ => .error ()
  b64decode := fun _ => .error ()
  jsonFromSlice := fun _ => .error ()
  jsonFromStr := fun _ => .error ()
  inflate := fun _ => .error ()
  keyLookup := fun _ => none
  fromJwk := fun _ => .error ()
  verify := fun _ _ _ _ => .error ()
  issuerName := fun _ => none
  updateIssuer := fun _ _ => .err
  parseEntries := fun _ => .error ()
  issuerRow := fun _ => none
  aamvaParse := fun _ => .error ()
  aamvaToValue := fun _ => .error ()
  urlParse := fun _ => .error ()

/-- Environment for a concrete SHC decode whose signature fails to verify:
the reconstructed JWS is `a.b.c`, its header carries `kid = "key1"` which the
key directory resolves, and verification reports `false`. -/
def envC2 : Env :=
  { envErr with
    decodeHeader := fun _ => .ok { alg := .ES256, kid := some "key1" }
    b64decode := fun _ => .ok []
    jsonFromSlice := fun _ => .ok (.obj [])
    jsonFromStr := fun _ => .ok (.obj [("iss", .str "issuer1")])
    keyLookup := fun _ => some 7
    fromJwk := fun _ => .ok 7
    verify := fun _ _ _ _ => .ok false
    parseEntries := fun _ => .ok [Json.null] }

/-- `shc:/` followed by the numeric pairs of `a.b.c`. -/
def inpC2 : List Char := "shc:/5201530154".data

/-- Environment whose header decode yields a header without a `kid`. -/
def envC9 : Env :=
  { envErr with decodeHeader := fun _ => .ok { alg := .ES256, kid := none } }

/-- `shc:/` followed by the numeric pairs of `a.b` (two JWS parts only). -/
def inpC9 : List Char := "shc:/520153".data

/-- Environment driving a concrete decode all the way to the `kid` unwrap
with a header that has no `kid`. -/
def envC1p : Env :=
  { envErr with
    decodeHeader := fun _ => .ok { alg := .ES256, kid := none }
    b64decode := fun _ => .ok []
    jsonFromSlice := fun _ => .ok (.obj [])
    jsonFromStr := fun _ => .ok (.obj [("iss", .str "issuer1")]) }

/-- `shc:/` followed by the numeric pairs of `a.b.c`. -/
def inpC1p : List Char := "shc:/5201530154".data

/-- A first POS report declaring length 2: its payload is empty, and 2 ≠ 63
flushes the (empty) buffer. -/
def bufC5 : List Nat := 2 :: List.replicate 63 0

/-- A first POS report declaring length 0. -/
def bufC6 : List Nat := List.replicate 64 0

/-- A well-formed single-report POS message: declared length 4, header bytes
2, 21, payload bytes 104, 105. -/
def bufC6w : List Nat := 4 :: 2 :: 21 :: 104 :: 105 :: List.replicate 59 0

/-- A directory issuer used by the key-directory scenarios. -/
def issuerC7 : VciIssuer := { iss := "https://a.example", name := "Issuer A" }

/-- Store after a successful refresh of `issuerC7` at time 0 with one key. -/
def dbC7a : Db :=
  { issuers := [{ iss := "https://a.example", name := "Issuer A", website := none,
                  canonicalIss := none, error := false, updatedAt := 0 }],
    keys := [{ issuerId := "https://a.example", keyId := "k1", data := 7 }] }

/-- Eight days, a time at which the time-0 row is stale. -/
def tC7 : Nat := 8 * 86400

/-- Store after the subsequent failed refresh of `issuerC7` at `tC7`: the
issuer row is marked `error = true` but the old key row remains. -/
def dbC7b : Db :=
  { issuers := [{ iss := "https://a.example", name := "Issuer A", website := none,
                  canonicalIss := none, error := true, updatedAt := tC7 }],
    keys := [{ issuerId := "https://a.example", keyId := "k1", data := 7 }] }

/-- A directory issuer used by the idempotence witness. -/
def issuerC8 : VciIssuer := { iss := "https://b.example", name := "Issuer B" }

/-- A one-issuer directory whose JWKS fetch returns a single key. -/
def listC8 : List (VciIssuer × FetchOutcome) :=
  [(issuerC8, .fetched [(some "k1", 3)])]

/-- Store after refreshing `listC8` from an empty store at time 5. -/
def dbC8a : Db :=
  { issuers := [{ iss := "https://b.example", name := "Issuer B", website := none,
                  canonicalIss := none, error := false, updatedAt := 5 }],
    keys := [{ issuerId := "https://b.example", keyId := "k1", data := 3 }] }

/-! ## Lemmas: trimming, prefix stripping, numeric pairs -/

theorem dropWhile_eq_self_of_not {α : Type} {p : α → Bool} {l : List α}
    (h : ∀ c ∈ l, p c = false) : l.dropWhile p = l := by
  cases l with
  | nil => rfl
  | cons a rest => rw [List.dropWhile_cons, h a (by simp), if_neg (by simp)]

theorem rustTrim_eq_self {l : List Char}
    (h : ∀ c ∈ l, isRustWhitespace c = false) : rustTrim l = l := by
  unfold rustTrim
  rw [dropWhile_eq_self_of_not h,
    dropWhile_eq_self_of_not (fun c hc => h c (List.mem_reverse.mp hc)),
    List.reverse_reverse]

theorem stripLead_append (p rest : List Char) : stripLead p (p ++ rest) = some rest := by
  induction p with
  | nil => simp [stripLead]
  | cons a ps ih => simp [stripLead, ih]

theorem not_ws_of_isDig {c : Char} (h : isDig c = true) : isRustWhitespace c = false := by
  simp only [isDig, Bool.and_eq_true, decide_eq_true_eq] at h
  simp only [isRustWhitespace, List.mem_cons, List.not_mem_nil, or_false,
    decide_eq_false_iff_not]
  omega

theorem rustTrim_shcLead_append {ds : List Char}
    (h : ∀ c ∈ ds, isRustWhitespace c = false) :
    rustTrim (shcLead ++ ds) = shcLead ++ ds := by
  refine rustTrim_eq_self (fun c hc => ?_)
  rcases List.mem_append.mp hc with h1 | h2
  · simp only [shcLead, List.mem_cons, List.not_mem_nil, or_false] at h1
    rcases h1 with rfl | rfl | rfl | rfl | rfl <;> decide
  · exact h c h2

theorem toNat_ofNat_lt {n : Nat} (h : n < 55296) : (Char.ofNat n).toNat = n := by
  unfold Char.ofNat
  rw [dif_pos (Or.inl h)]
  rfl

theorem ascii_of_isDig {c : Char} (h : isDig c = true) : c.toNat < 128 := by
  simp only [isDig, Bool.and_eq_true, decide_eq_true_eq] at h
  omega

theorem utf8Len_of_ascii {c : Char} (h : c.toNat < 128) : utf8Len c = 1 := by
  rw [utf8Len, if_pos h]

theorem utf8ByteLen_of_ascii : ∀ l : List Char, (∀ c ∈ l, c.toNat < 128) →
    utf8ByteLen l = l.length := by
  intro l
  induction l with
  | nil => intro _; rfl
  | cons c rest ih =>
    intro h
    have hrest := ih (fun x hx => h x (List.mem_cons_of_mem _ hx))
    rw [utf8ByteLen] at hrest
    rw [utf8ByteLen, List.map_cons, List.sum_cons,
      utf8Len_of_ascii (h c (List.mem_cons_self c rest)), List.length_cons]
    omega

theorem parsePairs_of_digits (ds : List Char) (h : ∀ c ∈ ds, isDig c = true)
    (he : ds.length % 2 = 0) : parsePairs ds = .ok (specNumericExpand ds) := by
  match ds with
  | [] => rfl
  | [a] => simp at he
  | a :: b :: rest =>
    have ha := h a (by simp)
    have hb := h b (by simp)
    have hr : ∀ c ∈ rest, isDig c = true := fun c hc => h c (by simp [hc])
    have her : rest.length % 2 = 0 := by
      simp only [List.length_cons] at he
      omega
    have ih := parsePairs_of_digits rest hr her
    simp only [parsePairs, utf8Len_of_ascii (ascii_of_isDig ha),
      utf8Len_of_ascii (ascii_of_isDig hb), if_true, parseU8Pair, ha, hb,
      Bool.and_self, ih, specNumericExpand]

theorem encodePair_digits {c : Char} (h45 : 45 ≤ c.toNat) (h144 : c.toNat ≤ 144) :
    ∀ d ∈ encodePair c, isDig d = true := by
  intro d hd
  simp only [encodePair, List.mem_cons, List.not_mem_nil, or_false] at hd
  rcases hd with rfl | rfl
  · rw [isDig, toNat_ofNat_lt (show 48 + (c.toNat - 45) / 10 < 55296 by omega)]
    simp only [Bool.and_eq_true, decide_eq_true_eq]
    omega
  · rw [isDig, toNat_ofNat_lt (show 48 + (c.toNat - 45) % 10 < 55296 by omega)]
    simp only [Bool.and_eq_true, decide_eq_true_eq]
    omega

theorem flatMap_encode_even (l : List Char) :
    (l.flatMap encodePair).length % 2 = 0 := by
  induction l with
  | nil => rfl
  | cons c rest ih =>
    simp only [List.flatMap_cons, encodePair, List.length_append, List.length_cons,
      List.length_nil]
    omega

theorem parsePairs_encode (l : List Char)
    (h : ∀ c ∈ l, 45 ≤ c.toNat ∧ c.toNat ≤ 144) :
    parsePairs (l.flatMap encodePair) = .ok l := by
  match l with
  | [] => rfl
  | c :: rest =>
    obtain ⟨h45, h144⟩ := h c (by simp)
    have hr : ∀ d ∈ rest, 45 ≤ d.toNat ∧ d.toNat ≤ 144 :=
      fun d hd => h d (by simp [hd])
    have ih := parsePairs_encode rest hr
    have hd1 : (Char.ofNat (48 + (c.toNat - 45) / 10)).toNat = 48 + (c.toNat - 45) / 10 :=
      toNat_ofNat_lt (by omega)
    have hd2 : (Char.ofNat (48 + (c.toNat - 45) % 10)).toNat = 48 + (c.toNat - 45) % 10 :=
      toNat_ofNat_lt (by omega)
    have hu1 : utf8Len (Char.ofNat (48 + (c.toNat - 45) / 10)) = 1 :=
      utf8Len_of_ascii (by rw [hd1]; omega)
    have hu2 : utf8Len (Char.ofNat (48 + (c.toNat - 45) % 10)) = 1 :=
      utf8Len_of_ascii (by rw [hd2]; omega)
    rw [List.flatMap_cons]
    show parsePairs (Char.ofNat (48 + (c.toNat - 45) / 10) ::
      Char.ofNat (48 + (c.toNat - 45) % 10) :: rest.flatMap encodePair) = .ok (c :: rest)
    have hcond : (isDig (Char.ofNat (48 + (c.toNat - 45) / 10)) &&
        isDig (Char.ofNat (48 + (c.toNat - 45) % 10))) = true := by
      rw [isDig, isDig, hd1, hd2]
      simp only [Bool.and_eq_true, decide_eq_true_eq]
      omega
    have hvl2 : (48 + (c.toNat - 45) / 10 - 48) * 10 + (48 + (c.toNat - 45) % 10 - 48) + 45
        = c.toNat := by omega
    simp only [parsePairs, hu1, hu2, if_true, parseU8Pair, hcond, ih, hd1, hd2,
      hvl2, Char.ofNat_toNat]

theorem parseU8Pair_err_of_not_okPair {a b : Char} (h : okPair a b = false) :
    parseU8Pair a b = .error "invalid digit found in string" := by
  simp only [okPair, Bool.or_eq_false_iff] at h
  simp only [parseU8Pair, h.1, h.2, if_false, Bool.false_eq_true]

theorem parseU8Pair_ok_of_okPair {a b : Char} (h : okPair a b = true) :
    ∃ n, parseU8Pair a b = .ok n := by
  simp only [okPair, Bool.or_eq_true] at h
  rcases h with h | h
  · exact ⟨_, by rw [parseU8Pair, if_pos h]⟩
  · by_cases hd : (isDig a && isDig b) = true
    · exact ⟨_, by rw [parseU8Pair, if_pos hd]⟩
    · exact ⟨_, by rw [parseU8Pair, if_neg hd, if_pos h]⟩

theorem parsePairs_hasBad (ds : List Char) (hA : ∀ c ∈ ds, c.toNat < 128)
    (h : hasBadPair ds = true) :
    parsePairs ds = .err "invalid digit found in string" := by
  match ds with
  | [] => simp [hasBadPair] at h
  | [a] => simp [hasBadPair] at h
  | a :: b :: rest =>
    have ha1 := utf8Len_of_ascii (hA a (by simp))
    have hb1 := utf8Len_of_ascii (hA b (by simp))
    simp only [hasBadPair, Bool.or_eq_true, Bool.not_eq_true'] at h
    rcases h with h | h
    · simp only [parsePairs, ha1, hb1, if_true, parseU8Pair_err_of_not_okPair h]
    · by_cases hok : okPair a b = true
      · obtain ⟨n, hn⟩ := parseU8Pair_ok_of_okPair hok
        have ih := parsePairs_hasBad rest (fun x hx => hA x (by simp [hx])) h
        simp only [parsePairs, ha1, hb1, if_true, hn, ih]
      · simp only [parsePairs, ha1, hb1, if_true,
          parseU8Pair_err_of_not_okPair (by simpa using hok)]

/-! ## Claim theorems -/

/-- C3 (corrected): for an input of `shc:/` followed by an even-length string
of decimal-digit pairs, stage 2 yields exactly the pairwise `chr(nn + 45)`
expansion, and encoding any character sequence with codes 45–144 through the
numeric-pair scheme then decoding it reproduces it exactly; an odd remaining
*byte* length fails; an all-ASCII remainder containing an aligned pair that
is neither two decimal digits nor a plus sign followed by a digit (Rust's
`u8` parsing accepts a leading `+`) fails with the parse error; an input
lacking the `shc:/` prefix fails as not-this-format; and on non-ASCII
remainders the byte-level chunking either fails the integer parse (a chunk
that is exactly a two-byte character) or *panics* at the byte slice (a chunk
whose end falls inside a character), rather than returning an error. -/
theorem claim_C3_amended :
    (∀ ds : List Char, (∀ c ∈ ds, isDig c = true) → ds.length % 2 = 0 →
      decodeQrData (shcLead ++ ds) = .ok (specNumericExpand ds)) ∧
    (∀ l : List Char, (∀ c ∈ l, 45 ≤ c.toNat ∧ c.toNat ≤ 144) →
      decodeQrData (encodeShc l) = .ok l) ∧
    (∀ ds : List Char, (∀ c ∈ ds, isRustWhitespace c = false) →
      utf8ByteLen ds % 2 = 1 →
      decodeQrData (shcLead ++ ds) = .err "data length must be even") ∧
    (∀ ds : List Char, (∀ c ∈ ds, c.toNat < 128 ∧ isRustWhitespace c = false) →
      hasBadPair ds = true → ds.length % 2 = 0 →
      decodeQrData (shcLead ++ ds) = .err "invalid digit found in string") ∧
    (∀ input : List Char, stripLead shcLead (rustTrim input) = none →
      decodeQrData input = .err "missing SHC prefix") ∧
    (∀ (c : Char) (rest : List Char),
      (∀ x ∈ c :: rest, isRustWhitespace x = false) → utf8Len c = 2 →
      utf8ByteLen (c :: rest) % 2 = 0 →
      decodeQrData (shcLead ++ c :: rest) = .err "invalid digit found in string") ∧
    (∀ (c : Char) (rest : List Char),
      (∀ x ∈ c :: rest, isRustWhitespace x = false) → 3 ≤ utf8Len c →
      utf8ByteLen (c :: rest) % 2 = 0 →
      decodeQrData (shcLead ++ c :: rest) = .panicked) ∧
    (∀ (c c2 : Char) (rest : List Char),
      (∀ x ∈ c :: c2 :: rest, isRustWhitespace x = false) → utf8Len c = 1 →
      2 ≤ utf8Len c2 → utf8ByteLen (c :: c2 :: rest) % 2 = 0 →
      decodeQrData (shcLead ++ c :: c2 :: rest) = .panicked) := by
  refine ⟨?_, ?_, ?_, ?_, ?_, ?_, ?_, ?_⟩
  · intro ds h he
    have hascii : ∀ c ∈ ds, c.toNat < 128 := fun c hc => ascii_of_isDig (h c hc)
    simp only [decodeQrData,
      rustTrim_shcLead_append (fun c hc => not_ws_of_isDig (h c hc)), stripLead_append]
    rw [if_pos (by rw [utf8ByteLen_of_ascii ds hascii]; exact he)]
    exact parsePairs_of_digits ds h he
  · intro l h
    have hdig : ∀ c ∈ l.flatMap encodePair, isDig c = true := by
      intro c hc
      obtain ⟨d, hd, hcd⟩ := List.mem_flatMap.mp hc
      exact encodePair_digits (h d hd).1 (h d hd).2 c hcd
    have hascii : ∀ c ∈ l.flatMap encodePair, c.toNat < 128 :=
      fun c hc => ascii_of_isDig (hdig c hc)
    rw [encodeShc]
    simp only [decodeQrData,
      rustTrim_shcLead_append (fun c hc => not_ws_of_isDig (hdig c hc)), stripLead_append]
    rw [if_pos (by rw [utf8ByteLen_of_ascii _ hascii]; exact flatMap_encode_even l)]
    exact parsePairs_encode l h
  · intro ds h he
    simp only [decodeQrData, rustTrim_shcLead_append h, stripLead_append]
    rw [if_neg (by omega)]
  · intro ds h hbad hev
    have hascii : ∀ c ∈ ds, c.toNat < 128 := fun c hc => (h c hc).1
    have hws : ∀ c ∈ ds, isRustWhitespace c = false := fun c hc => (h c hc).2
    simp only [decodeQrData, rustTrim_shcLead_append hws, stripLead_append]
    rw [if_pos (by rw [utf8ByteLen_of_ascii ds hascii]; exact hev)]
    exact parsePairs_hasBad ds hascii hbad
  · intro input h
    rw [decodeQrData, h]
  · intro c rest hws h2 hev
    have hn1 : ¬ utf8Len c = 1 := by omega
    simp only [decodeQrData, rustTrim_shcLead_append hws, stripLead_append]
    rw [if_pos hev]
    cases rest <;> simp [parsePairs, h2, hn1]
  · intro c rest hws h3 hev
    have hn1 : ¬ utf8Len c = 1 := by omega
    have hn2 : ¬ utf8Len c = 2 := by omega
    simp only [decodeQrData, rustTrim_shcLead_append hws, stripLead_append]
    rw [if_pos hev]
    cases rest <;> simp [parsePairs, hn1, hn2]
  · intro c c2 rest hws h1 h2 hev
    have hn1 : ¬ utf8Len c2 = 1 := by omega
    simp only [decodeQrData, rustTrim_shcLead_append hws, stripLead_append]
    rw [if_pos hev]
    simp [parsePairs, h1, hn1]

/-- C3 counterexample: the pair `+0` is not a pair of decimal digits, yet
`decode_qr_data` accepts it (Rust's `u8` parsing allows a leading plus sign)
and maps it to `chr(0 + 45) = '-'` instead of failing. -/
theorem claim_C3_counterexample :
    decodeQrData ("shc:/+0".data) = .ok ['-'] ∧ isDig '+' = false :=
  ⟨rfl, by decide⟩

/-- C3 witness: the amended claim applied at concrete inputs: the pairs `52`
expand to `a`, encoding `a` round-trips, `5` has odd byte length, `xy` is a
bad pair, `1234` lacks the scheme marker, a lone `é` chunk fails the integer
parse, and `€x` and `1é1` panic at the byte slice. -/
theorem claim_C3_witness :
    decodeQrData (shcLead ++ ['5', '2']) = .ok (specNumericExpand ['5', '2']) ∧
    decodeQrData (encodeShc ['a']) = .ok ['a'] ∧
    decodeQrData (shcLead ++ ['5']) = .err "data length must be even" ∧
    decodeQrData (shcLead ++ ['x', 'y']) = .err "invalid digit found in string" ∧
    decodeQrData ("1234".data) = .err "missing SHC prefix" ∧
    decodeQrData (shcLead ++ ['é']) = .err "invalid digit found in string" ∧
    decodeQrData (shcLead ++ '€' :: ['x']) = .panicked ∧
    decodeQrData (shcLead ++ '1' :: 'é' :: ['1']) = .panicked :=
  ⟨claim_C3_amended.1 _ (by decide) (by decide),
   claim_C3_amended.2.1 _ (by decide),
   claim_C3_amended.2.2.1 _ (by decide) (by decide),
   claim_C3_amended.2.2.2.1 _ (by decide) (by decide) (by decide),
   claim_C3_amended.2.2.2.2.1 _ (by decide),
   claim_C3_amended.2.2.2.2.2.1 'é' [] (by decide) (by decide) (by decide),
   claim_C3_amended.2.2.2.2.2.2.1 '€' ['x'] (by decide) (by decide) (by decide),
   claim_C3_amended.2.2.2.2.2.2.2 '1' 'é' ['1'] (by decide) (by decide) (by decide)
     (by decide)⟩

/-- C4 (code bug): the keyboard handler uppercases a mapped keycode only when
*both* shift bits are set in the modifier mask (`enumflags2::contains`
requires every flag of its argument), not when either one is: with left shift
alone (`0x02`) or right shift alone (`0x20`) keycode 4 stays `a`; only with
both (`0x22`) does it become `A`. -/
theorem claim_C4_bug :
    kbProcessReport [] [2, 0, 4, 0, 0, 0, 0, 0] 8 = ['a'] ∧
    kbProcessReport [] [32, 0, 4, 0, 0, 0, 0, 0] 8 = ['a'] ∧
    kbProcessReport [] [34, 0, 4, 0, 0, 0, 0, 0] 8 = ['A'] := by
  refine ⟨?_, ?_, ?_⟩ <;> decide

theorem kbStep_out (s : KbState) (e : KbEvent) (h : [] ∉ s.out) :
    [] ∉ (kbStep s e).out := by
  unfold kbStep
  split
  · exact h
  · cases e with
    | tick =>
      by_cases hne : s.inp = []
      · rw [if_pos hne]
        exact h
      · rw [if_neg hne]
        simp only [List.mem_append, List.mem_singleton]
        rintro (hc | hc)
        · exact h hc
        · exact hne hc.symm
    | closed => exact h
    | cancelled => exact h
    | readErr => exact h
    | report buf size => exact h

theorem kbFold_out : ∀ (events : List KbEvent) (s : KbState),
    [] ∉ s.out → [] ∉ (events.foldl kbStep s).out
  | [], _, h => h
  | e :: es, s, h => kbFold_out es (kbStep s e) (kbStep_out s e h)

theorem serStep_out (lossy : List Nat → List Char) (s : SerState) (e : SerEvent)
    (h : [] ∉ s.out) : [] ∉ (serStep lossy s e).out := by
  unfold serStep
  split
  · exact h
  · cases e with
    | tick =>
      by_cases hne : s.inp = []
      · rw [if_pos hne]
        exact h
      · rw [if_neg hne]
        simp only [List.mem_append, List.mem_singleton]
        rintro (hc | hc)
        · exact h hc
        · exact hne hc.symm
    | closed => exact h
    | cancelled => exact h
    | readErr => exact h
    | data bytes =>
      dsimp only
      by_cases hz : bytes.length = 0
      · rw [if_pos hz]
        exact h
      · rw [if_neg hz]
        exact h

theorem serFold_out (lossy : List Nat → List Char) :
    ∀ (events : List SerEvent) (s : SerState),
    [] ∉ s.out → [] ∉ (events.foldl (serStep lossy) s).out
  | [], _, h => h
  | e :: es, s, h => serFold_out lossy es _ (serStep_out lossy s e h)

/-- C5 (corrected, keyboard and serial halves): across every event sequence,
the keyboard-HID and serial framing loops never emit an empty string — both
flush only a non-empty buffer.  (The POS handler does emit an empty message,
see the counterexample.) -/
theorem claim_C5_amended :
    (∀ events : List KbEvent, [] ∉ (kbRun events).out) ∧
    (∀ (lossy : List Nat → List Char) (events : List SerEvent),
      [] ∉ (serRun lossy events).out) :=
  ⟨fun events => kbFold_out events {} (List.not_mem_nil _),
   fun lossy events => serFold_out lossy events {} (List.not_mem_nil _)⟩

/-- C5 counterexample: a single POS report declaring length 2 contributes an
empty payload and, since 2 ≠ 63, flushes immediately — the session emits the
empty string as a message. -/
theorem claim_C5_counterexample :
    posRun [.input bufC5] = .ok { inp := [], out := [[]], stopped := false } := by
  rfl

/-- C10 (confirmed): on the first report of a message (empty buffer), a
declared length byte of 0 or 1 makes `buf[3..=data_len]` an invalid range
(`3 > data_len + 1`), so the POS handler panics instead of treating the
report as empty or returning a transport error. -/
theorem claim_C10_panics (buf : List Nat) (s : PosState)
    (hstop : s.stopped = false) (hemp : s.inp = [])
    (hlen : buf.headI = 0 ∨ buf.headI = 1) :
    posStep s (.input buf) = .error () := by
  have h3 : ¬(3 ≤ buf.headI + 1 ∧ buf.headI + 1 ≤ buf.length) := by
    rcases hlen with h | h <;> omega
  simp only [posStep, hstop, Bool.false_eq_true, if_false, hemp, if_true,
    sliceIncl, h3]

/-- C10 witness: the all-zero 64-byte report (declared length 0) panics the
POS handler from the initial state. -/
theorem claim_C10_witness :
    (List.replicate 64 0 : List Nat).headI = 0 ∧
    posStep {} (.input (List.replicate 64 0)) = .error () :=
  ⟨by decide, claim_C10_panics (List.replicate 64 0) {} rfl rfl (Or.inl (by decide))⟩

theorem specPosMessages_length : ∀ (reports : List (List Nat)) (first : Bool)
    (acc : List Nat), (specPosMessages first acc reports).length =
      reports.countP (fun b => decide (b.headI ≠ 63)) := by
  intro reports
  induction reports with
  | nil => intro first acc; rfl
  | cons buf rest ih =>
    intro first acc
    rw [specPosMessages]
    by_cases h63 : buf.headI ≠ 63
    · rw [if_pos h63, List.countP_cons]
      simp [h63, ih]
    · rw [if_neg h63, List.countP_cons]
      simp [h63, ih]

theorem posFold_spec : ∀ (reports : List (List Nat)) (s : PosState),
    s.stopped = false → posValid s.inp.isEmpty reports = true →
    ∃ s2, posRunFrom s (reports.map PosEvent.input) = .ok s2 ∧
      s2.out = s.out ++ specPosMessages s.inp.isEmpty s.inp reports ∧
      s2.stopped = false := by
  intro reports
  induction reports with
  | nil =>
    intro s hs _
    exact ⟨s, rfl, by simp [specPosMessages], hs⟩
  | cons buf rest ih =>
    intro s hs hv
    simp only [posValid, Bool.and_eq_true, decide_eq_true_eq, Bool.or_eq_true,
      Bool.not_eq_true'] at hv
    obtain ⟨⟨⟨h64, h63⟩, hfirst⟩, hrest⟩ := hv
    by_cases hem : s.inp = []
    · have hemB : s.inp.isEmpty = true := by simp [hem]
      have h2 : 2 ≤ buf.headI := by
        rcases hfirst with hf | hf
        · rw [hemB] at hf; cases hf
        · exact hf
      have hslice : sliceIncl buf 3 buf.headI =
          some ((buf.take (buf.headI + 1)).drop 3) := by
        rw [sliceIncl, if_pos ⟨by omega, by omega⟩]
      have hstep : posStep s (.input buf) =
          (if buf.headI ≠ 63 then
            Except.ok (⟨[], s.out ++ [s.inp ++ (buf.take (buf.headI + 1)).drop 3],
              s.stopped⟩ : PosState)
          else
            Except.ok (⟨s.inp ++ (buf.take (buf.headI + 1)).drop 3, s.out,
              s.stopped⟩ : PosState)) := by
        simp only [posStep, hs, Bool.false_eq_true, if_false, hem, if_true, hslice]
      by_cases hb : buf.headI = 63
      · -- continuation keeps accumulating
        rw [if_neg (by omega)] at hstep
        have hlen : ((buf.take (buf.headI + 1)).drop 3).length = 61 := by
          rw [List.length_drop, List.length_take, hb, h64]
          omega
        have hne : s.inp ++ (buf.take (buf.headI + 1)).drop 3 ≠ [] := by
          intro hcon
          have := congrArg List.length hcon
          simp only [List.length_append, hlen, List.length_nil] at this
          omega
        have hneB : (s.inp ++ (buf.take (buf.headI + 1)).drop 3).isEmpty = false := by
          rw [Bool.eq_false_iff]
          intro hI
          exact hne (List.isEmpty_iff.mp hI)
        have hrest2 : posValid false rest = true := by
          simpa [hb] using hrest
        obtain ⟨s2, hrun, hout, hstop⟩ :=
          ih ⟨s.inp ++ (buf.take (buf.headI + 1)).drop 3, s.out, s.stopped⟩
            hs (by rw [hneB]; exact hrest2)
        dsimp only at hout
        refine ⟨s2, ?_, ?_, hstop⟩
        · rw [List.map_cons, posRunFrom, hstep]
          exact hrun
        · rw [hout, hneB, specPosMessages, if_neg (by omega)]
          simp [posPayload, hemB]
      · -- declared length ≠ 63 flushes
        rw [if_pos (by omega)] at hstep
        have hrest2 : posValid true rest = true := by
          simpa [hb] using hrest
        obtain ⟨s2, hrun, hout, hstop⟩ :=
          ih ⟨[], s.out ++ [s.inp ++ (buf.take (buf.headI + 1)).drop 3], s.stopped⟩
            hs (by simpa using hrest2)
        dsimp only at hout
        refine ⟨s2, ?_, ?_, hstop⟩
        · rw [List.map_cons, posRunFrom, hstep]
          exact hrun
        · rw [hout, specPosMessages, if_pos (by omega)]
          simp [posPayload, hemB, List.append_assoc]
    · -- continuation report: skip one header byte
      have hemB : s.inp.isEmpty = false := by
        rw [Bool.eq_false_iff]
        intro hI
        exact hem (List.isEmpty_iff.mp hI)
      have hslice : sliceIncl buf 1 buf.headI =
          some ((buf.take (buf.headI + 1)).drop 1) := by
        rw [sliceIncl, if_pos ⟨by omega, by omega⟩]
      have hstep : posStep s (.input buf) =
          (if buf.headI ≠ 63 then
            Except.ok (⟨[], s.out ++ [s.inp ++ (buf.take (buf.headI + 1)).drop 1],
              s.stopped⟩ : PosState)
          else
            Except.ok (⟨s.inp ++ (buf.take (buf.headI + 1)).drop 1, s.out,
              s.stopped⟩ : PosState)) := by
        simp only [posStep, hs, Bool.false_eq_true, if_false, hem, if_false, hslice]
      by_cases hb : buf.headI = 63
      · rw [if_neg (by omega)] at hstep
        have hlen : ((buf.take (buf.headI + 1)).drop 1).length = 63 := by
          rw [List.length_drop, List.length_take, hb, h64]
          omega
        have hne : s.inp ++ (buf.take (buf.headI + 1)).drop 1 ≠ [] := by
          intro hcon
          have := congrArg List.length hcon
          simp only [List.length_append, hlen, List.length_nil] at this
          omega
        have hneB : (s.inp ++ (buf.take (buf.headI + 1)).drop 1).isEmpty = false := by
          rw [Bool.eq_false_iff]
          intro hI
          exact hne (List.isEmpty_iff.mp hI)
        have hrest2 : posValid false rest = true := by
          simpa [hb] using hrest
        obtain ⟨s2, hrun, hout, hstop⟩ :=
          ih ⟨s.inp ++ (buf.take (buf.headI + 1)).drop 1, s.out, s.stopped⟩
            hs (by rw [hneB]; exact hrest2)
        dsimp only at hout
        refine ⟨s2, ?_, ?_, hstop⟩
        · rw [List.map_cons, posRunFrom, hstep]
          exact hrun
        · rw [hout, hneB, specPosMessages, if_neg (by omega)]
          simp [posPayload, hemB]
      · rw [if_pos (by omega)] at hstep
        have hrest2 : posValid true rest = true := by
          simpa [hb] using hrest
        obtain ⟨s2, hrun, hout, hstop⟩ :=
          ih ⟨[], s.out ++ [s.inp ++ (buf.take (buf.headI + 1)).drop 1], s.stopped⟩
            hs (by simpa using hrest2)
        dsimp only at hout
        refine ⟨s2, ?_, ?_, hstop⟩
        · rw [List.map_cons, posRunFrom, hstep]
          exact hrun
        · rw [hout, specPosMessages, if_pos (by omega)]
          simp [posPayload, hemB, List.append_assoc]

/-- C6 (corrected): over report sequences on which the handler does not panic
(64-byte reports, declared length at most 63, and at least 2 on each
message-initial report — see the counterexample and C10 for the excluded
reports), the POS loop emits exactly the spec-side messages: payloads after
skipping 3 header bytes on a message's first report and 1 on continuations,
concatenated in report order, one message per report with declared
length ≠ 63, clearing the buffer at each emission. -/
theorem claim_C6_amended (reports : List (List Nat))
    (hv : posValid true reports = true) :
    ∃ s, posRun (reports.map PosEvent.input) = .ok s ∧
      s.out = specPosMessages true [] reports ∧
      s.out.length = reports.countP (fun b => decide (b.headI ≠ 63)) := by
  obtain ⟨s2, hrun, hout, _⟩ := posFold_spec reports {} rfl (by simpa using hv)
  refine ⟨s2, hrun, by simpa using hout, ?_⟩
  rw [hout]
  simp [specPosMessages_length]

/-- C6 counterexample: a single report with declared length 0 (≠ 63) emits no
message at all — the claim promises one message per such report, but the
handler panics on the invalid slice `buf[3..=0]`. -/
theorem claim_C6_counterexample :
    posRun [.input bufC6] = .error () ∧ bufC6.headI ≠ 63 :=
  ⟨rfl, by decide⟩

/-- C6 witness: a single well-formed report of declared length 4 with header
bytes 2, 21 and payload bytes 104, 105 emits exactly one message. -/
theorem claim_C6_witness :
    posValid true [bufC6w] = true ∧
    (∃ s, posRun ([bufC6w].map PosEvent.input) = .ok s ∧
      s.out = specPosMessages true [] [bufC6w] ∧
      s.out.length = [bufC6w].countP (fun b => decide (b.headI ≠ 63))) :=
  ⟨by decide, claim_C6_amended [bufC6w] (by decide)⟩

theorem chainDecode_found_iff :
    ∀ (L : List (String × (List Char → DOutcome BData))) (dis : List String)
      (inp : List Char), chainDecode L dis inp ≠ .panicked →
      ∀ (name : String) (d : BData),
      (chainDecode L dis inp = .found name d ↔
        ∃ pre f post, L = pre ++ (name, f) :: post ∧ name ∉ dis ∧ f inp = .ok d ∧
          ∀ q ∈ pre, q.1 ∈ dis ∨ ∀ d0, q.2 inp ≠ .ok d0) := by
  intro L
  induction L with
  | nil =>
    intro dis inp _ name d
    constructor
    · intro h
      exact ChainResult.noConfusion h
    · rintro ⟨pre, f, post, hL, -, -, -⟩
      simp at hL
  | cons q rest ih =>
    intro dis inp hnp name d
    obtain ⟨qn, qf⟩ := q
    by_cases hdis : qn ∈ dis
    · have hch : chainDecode ((qn, qf) :: rest) dis inp = chainDecode rest dis inp := by
        rw [chainDecode, if_pos hdis]
      rw [hch] at hnp ⊢
      rw [ih dis inp hnp name d]
      constructor
      · rintro ⟨pre, f, post, hL, hn, hf, hpre⟩
        refine ⟨(qn, qf) :: pre, f, post, by rw [hL, List.cons_append], hn, hf, ?_⟩
        intro q' hq'
        rcases List.mem_cons.mp hq' with rfl | hmem
        · exact Or.inl hdis
        · exact hpre q' hmem
      · rintro ⟨pre, f, post, hL, hn, hf, hpre⟩
        cases pre with
        | nil =>
          simp only [List.nil_append, List.cons.injEq, Prod.mk.injEq] at hL
          obtain ⟨⟨h1, -⟩, -⟩ := hL
          subst h1
          exact absurd hdis hn
        | cons p0 pre' =>
          simp only [List.cons_append, List.cons.injEq] at hL
          obtain ⟨-, hrest'⟩ := hL
          exact ⟨pre', f, post, hrest', hn, hf,
            fun q' hq' => hpre q' (List.mem_cons_of_mem _ hq')⟩
    · cases hq : qf inp with
      | ok d0 =>
        have hch : chainDecode ((qn, qf) :: rest) dis inp = .found qn d0 := by
          rw [chainDecode, if_neg hdis, hq]
        rw [hch]
        constructor
        · intro h
          injection h with h1 h2
          subst h1
          subst h2
          exact ⟨[], qf, rest, rfl, hdis, hq, by simp⟩
        · rintro ⟨pre, f, post, hL, hn, hf, hpre⟩
          cases pre with
          | nil =>
            simp only [List.nil_append, List.cons.injEq, Prod.mk.injEq] at hL
            obtain ⟨⟨h1, h2⟩, -⟩ := hL
            subst h1
            subst h2
            rw [hq] at hf
            injection hf with hd
            rw [hd]
          | cons p0 pre' =>
            simp only [List.cons_append, List.cons.injEq] at hL
            obtain ⟨hp0, -⟩ := hL
            rcases hpre p0 (List.mem_cons_self p0 pre') with hc | hc
            · rw [← hp0] at hc
              exact absurd hc hdis
            · rw [← hp0] at hc
              exact absurd hq (hc d0)
      | err =>
        have hch : chainDecode ((qn, qf) :: rest) dis inp = chainDecode rest dis inp := by
          rw [chainDecode, if_neg hdis, hq]
        rw [hch] at hnp ⊢
        rw [ih dis inp hnp name d]
        constructor
        · rintro ⟨pre, f, post, hL, hn, hf, hpre⟩
          refine ⟨(qn, qf) :: pre, f, post, by rw [hL, List.cons_append], hn, hf, ?_⟩
          intro q' hq'
          rcases List.mem_cons.mp hq' with rfl | hmem
          · refine Or.inr (fun d0 hc => ?_)
            dsimp only at hc
            rw [hq] at hc
            exact DOutcome.noConfusion hc
          · exact hpre q' hmem
        · rintro ⟨pre, f, post, hL, hn, hf, hpre⟩
          cases pre with
          | nil =>
            simp only [List.nil_append, List.cons.injEq, Prod.mk.injEq] at hL
            obtain ⟨⟨h1, h2⟩, -⟩ := hL
            subst h1
            subst h2
            rw [hq] at hf
            exact DOutcome.noConfusion hf
          | cons p0 pre' =>
            simp only [List.cons_append, List.cons.injEq] at hL
            obtain ⟨-, hrest'⟩ := hL
            exact ⟨pre', f, post, hrest', hn, hf,
              fun q' hq' => hpre q' (List.mem_cons_of_mem _ hq')⟩
      | panicked =>
        exact absurd (by rw [chainDecode, if_neg hdis, hq]) hnp

theorem chainDecode_nothing_iff :
    ∀ (L : List (String × (List Char → DOutcome BData))) (dis : List String)
      (inp : List Char), chainDecode L dis inp ≠ .panicked →
      (chainDecode L dis inp = .nothing ↔
        ∀ q ∈ L, q.1 ∈ dis ∨ ∀ d0, q.2 inp ≠ .ok d0) := by
  intro L
  induction L with
  | nil =>
    intro dis inp _
    simp [chainDecode]
  | cons q rest ih =>
    intro dis inp hnp
    obtain ⟨qn, qf⟩ := q
    by_cases hdis : qn ∈ dis
    · have hch : chainDecode ((qn, qf) :: rest) dis inp = chainDecode rest dis inp := by
        rw [chainDecode, if_pos hdis]
      rw [hch] at hnp ⊢
      rw [ih dis inp hnp]
      constructor
      · intro h q' hq'
        rcases List.mem_cons.mp hq' with rfl | hmem
        · exact Or.inl hdis
        · exact h q' hmem
      · intro h q' hq'
        exact h q' (List.mem_cons_of_mem _ hq')
    · cases hq : qf inp with
      | ok d0 =>
        have hch : chainDecode ((qn, qf) :: rest) dis inp = .found qn d0 := by
          rw [chainDecode, if_neg hdis, hq]
        rw [hch]
        constructor
        · intro h
          exact ChainResult.noConfusion h
        · intro h
          rcases h (qn, qf) (List.mem_cons_self (qn, qf) rest) with hc | hc
          · exact absurd hc hdis
          · exact absurd hq (hc d0)
      | err =>
        have hch : chainDecode ((qn, qf) :: rest) dis inp = chainDecode rest dis inp := by
          rw [chainDecode, if_neg hdis, hq]
        rw [hch] at hnp ⊢
        rw [ih dis inp hnp]
        constructor
        · intro h q' hq'
          rcases List.mem_cons.mp hq' with rfl | hmem
          · refine Or.inr (fun d0 hc => ?_)
            dsimp only at hc
            rw [hq] at hc
            exact DOutcome.noConfusion hc
          · exact h q' hmem
        · intro h q' hq'
          exact h q' (List.mem_cons_of_mem _ hq')
      | panicked =>
        exact absurd (by rw [chainDecode, if_neg hdis, hq]) hnp

/-- C1 (corrected): whenever the chain does not panic (the SHC decoder can
panic: the numeric-pair byte slice on non-ASCII input, the missing-`kid`
unwrap — see C9 — and a kid-less fetched JWKS key during the on-demand
refresh), `BarcodeDecoders::decode` over the construction-order list
SHC, AAMVA, Link, Generic returns `(decoderName, record)` exactly for the
first enabled decoder that succeeds — every decoder before it is disabled or
fails, a disabled decoder is skipped, and an error from one decoder does not
prevent trying the next — and returns nothing exactly when every enabled
decoder fails. -/
theorem claim_C1_amended (env : Env) (disabled : List String) (input : List Char)
    (hnp : chainDecode (barcodeDecoders env) disabled input ≠ .panicked) :
    (∀ name d, chainDecode (barcodeDecoders env) disabled input = .found name d ↔
      ∃ pre f post, barcodeDecoders env = pre ++ (name, f) :: post ∧
        name ∉ disabled ∧ f input = .ok d ∧
        ∀ q ∈ pre, q.1 ∈ disabled ∨ ∀ d0, q.2 input ≠ .ok d0) ∧
    (chainDecode (barcodeDecoders env) disabled input = .nothing ↔
      ∀ q ∈ barcodeDecoders env, q.1 ∈ disabled ∨ ∀ d0, q.2 input ≠ .ok d0) :=
  ⟨fun name d => chainDecode_found_iff (barcodeDecoders env) disabled input hnp name d,
   chainDecode_nothing_iff (barcodeDecoders env) disabled input hnp⟩

/-- C1 counterexample: on an input whose SHC decode reaches the missing-`kid`
unwrap, and likewise on `shc:/€x` whose numeric-pair loop byte-slices into
the middle of `€`, the chain neither returns a pair nor nothing — it panics,
so the claim's universal dichotomy fails. -/
theorem claim_C1_counterexample :
    chainDecode (barcodeDecoders envC1p) [] inpC1p = .panicked ∧
    chainDecode (barcodeDecoders envErr) [] ("shc:/€x".data) = .panicked :=
  ⟨rfl, rfl⟩

/-- C1 witness: with every external collaborator failing and nothing
disabled, decoding `x` falls through SHC, AAMVA and Link and is returned by
the Generic decoder, the last of the fixed order. -/
theorem claim_C1_witness :
    ∃ pre f post, barcodeDecoders envErr = pre ++ ("Generic Data", f) :: post ∧
      ("Generic Data" : String) ∉ ([] : List String) ∧
      f ("x".data) = .ok (.generic "x".data) ∧
      ∀ q ∈ pre, q.1 ∈ ([] : List String) ∨ ∀ d0, q.2 ("x".data) ≠ .ok d0 := by
  have hch : chainDecode (barcodeDecoders envErr) [] "x".data
      = .found "Generic Data" (.generic "x".data) := rfl
  exact ((claim_C1_amended envErr [] "x".data
    (fun h => ChainResult.noConfusion (hch.symm.trans h))).1 "Generic Data"
    (.generic "x".data)).mp hch

theorem splitOnDot_mem_dot :
    ∀ (l : List Char) (a b : List Char) (rest : List (List Char)),
    splitOnDot l = a :: b :: rest → '.' ∈ l := by
  intro l
  induction l with
  | nil =>
    intro a b rest h
    simp [splitOnDot] at h
  | cons c l ih =>
    intro a b rest h
    rw [splitOnDot] at h
    by_cases hc : c = '.'
    · rw [hc]
      exact List.mem_cons_self '.' l
    · rw [if_neg hc] at h
      cases hsp : splitOnDot l with
      | nil =>
        rw [hsp] at h
        simp at h
      | cons p ps =>
        rw [hsp] at h
        injection h with h1 h2
        exact List.mem_cons_of_mem _ (ih p b rest (by rw [hsp, h2]))

theorem rfindDot_isSome_of_mem :
    ∀ (l : List Char), '.' ∈ l → ∃ i, rfindDot l = some i := by
  intro l
  induction l with
  | nil =>
    intro h
    simp at h
  | cons c l ih =>
    intro h
    rw [rfindDot]
    cases hr : rfindDot l with
    | some i => exact ⟨i + 1, rfl⟩
    | none =>
      rcases List.mem_cons.mp h with h1 | h2
      · rw [if_pos h1.symm]
        exact ⟨0, rfl⟩
      · obtain ⟨i, hi⟩ := ih h2
        rw [hi] at hr
        cases hr

/-- C2 (confirmed): in the SHC pipeline, once the card decodes structurally
(stages 1–6) — for a key id found in the local key directory whose
cryptographic verification reports `false`, and likewise for a key id the
on-demand refresh cannot resolve — the decode is not aborted: it returns a
record with `verified = false` and the clinical entries and raw claims
populated. -/
theorem claim_C2_verified_false
    (env : Env) (input qrData : List Char) (header : JwsHeader) (kid : String)
    (p0 p1 p2 decompressed : List Char) (data : Json) (iss : String)
    (entries : List Json)
    (h1 : decodeQrData input = .ok qrData)
    (h2 : env.decodeHeader qrData = .ok header)
    (h3 : header.kid = some kid)
    (h4 : splitOnDot qrData = [p0, p1, p2])
    (h5 : decompressData env p0 p1 = .ok decompressed)
    (h6 : env.jsonFromStr decompressed = .ok data)
    (h7 : (data.index "iss").asStr = some iss)
    (h11 : env.parseEntries ((((data.index "vc").index "credentialSubject").index
      "fhirBundle").index "entry") = .ok entries) :
    (∀ jwk key, env.keyLookup kid = some jwk → env.fromJwk jwk = .ok key →
      (∀ m, env.verify p2 m key JwsAlg.ES256 = .ok false) →
      shcDecode env input = .ok
        { verified := false, issuer := env.issuerRow iss,
          relevantData := entries, rawData := data }) ∧
    (∀ meta, env.keyLookup kid = none →
      env.updateIssuer iss ((env.issuerName iss).getD "Unknown Issuer") = .ok meta →
      meta.jwkSet = none →
      shcDecode env input = .ok
        { verified := false, issuer := env.issuerRow iss,
          relevantData := entries, rawData := data }) := by
  obtain ⟨i, hi⟩ := rfindDot_isSome_of_mem qrData (splitOnDot_mem_dot qrData p0 p1 [p2] h4)
  constructor
  · intro jwk key h8 h9 h10
    simp only [shcDecode, h1, h2, h4, h5, h6, h7, h3, h8, h9, hi, h10, h11]
  · intro meta h8 h12 h13
    simp only [shcDecode, h1, h2, h4, h5, h6, h7, h3, h8, hi, h12, h13, h11]

/-- C2 witness: a concrete card reconstructing `a.b.c` whose `kid` resolves
locally and whose signature verification reports `false` still decodes, with
entries and raw claims populated and `verified = false`. -/
theorem claim_C2_witness :
    shcDecode envC2 inpC2 = .ok
      { verified := false, issuer := none, relevantData := [Json.null],
        rawData := Json.obj [("iss", Json.str "issuer1")] } :=
  (claim_C2_verified_false envC2 inpC2 ("a.b.c".data)
    { alg := .ES256, kid := some "key1" } "key1" "a".data "b".data "c".data
    "b".data (Json.obj [("iss", Json.str "issuer1")]) "issuer1" [Json.null]
    rfl rfl rfl rfl rfl rfl rfl rfl).1 7 7 rfl rfl (fun _ => rfl)

/-- C9 (corrected): on an input that passes the prefix and numeric-pair
stages *and additionally* the header decode, the three-part split, payload
decompression, claims parse and issuer extraction, a header without a `kid`
makes the decoder panic at `header.kid.unwrap()` instead of returning a
decode error.  (As stated, the claim fails: an input can pass the first two
stages with a kid-less header and still return an ordinary error from a
later stage — see the counterexample.) -/
theorem claim_C9_amended
    (env : Env) (input qrData : List Char) (header : JwsHeader)
    (p0 p1 p2 decompressed : List Char) (data : Json) (iss : String)
    (h1 : decodeQrData input = .ok qrData)
    (h2 : env.decodeHeader qrData = .ok header)
    (h3 : header.kid = none)
    (h4 : splitOnDot qrData = [p0, p1, p2])
    (h5 : decompressData env p0 p1 = .ok decompressed)
    (h6 : env.jsonFromStr decompressed = .ok data)
    (h7 : (data.index "iss").asStr = some iss) :
    shcDecode env input = .panicked := by
  simp only [shcDecode, h1, h2, h4, h5, h6, h7, h3]

/-- C9 counterexample: `shc:/520153` passes the prefix and numeric-pair
stages, reconstructing `a.b`, and its header (as modelled) has no `kid`; yet
the decoder returns an ordinary error — the two-part split fails before the
`kid` unwrap is reached — rather than panicking as the claim states. -/
theorem claim_C9_counterexample :
    decodeQrData inpC9 = .ok ("a.b".data) ∧
    envC9.decodeHeader ("a.b".data) = .ok { alg := .ES256, kid := none } ∧
    shcDecode envC9 inpC9 = .err :=
  ⟨rfl, rfl, rfl⟩

/-- C9 witness: a concrete decode reaching the `kid` unwrap with no `kid`
panics. -/
theorem claim_C9_witness : shcDecode envC1p inpC1p = .panicked :=
  claim_C9_amended envC1p inpC1p ("a.b.c".data) { alg := .ES256, kid := none }
    "a".data "b".data "c".data "b".data (Json.obj [("iss", Json.str "issuer1")])
    "issuer1" rfl rfl rfl rfl rfl rfl rfl

theorem find?_upsert_self (iss : String) (row : IssuerRow) (hrow : row.iss = iss) :
    ∀ l : List IssuerRow, l.any (fun r => r.iss = iss) = true →
    (l.map (fun r => if r.iss = iss then row else r)).find? (fun r => r.iss = iss) =
      some row := by
  intro l
  induction l with
  | nil =>
    intro h
    simp at h
  | cons a l ih =>
    intro h
    rw [List.map_cons]
    by_cases ha : a.iss = iss
    · rw [if_pos ha, List.find?_cons_of_pos _ (by simp [hrow])]
    · rw [if_neg ha, List.find?_cons_of_neg _ (by simp [ha])]
      refine ih ?_
      simpa [List.any_cons, ha] using h

theorem find?_append_self (iss : String) (row : IssuerRow) (hrow : row.iss = iss) :
    ∀ l : List IssuerRow, l.any (fun r => r.iss = iss) = false →
    (l ++ [row]).find? (fun r => r.iss = iss) = some row := by
  intro l
  induction l with
  | nil =>
    intro _
    rw [List.nil_append, List.find?_cons_of_pos _ (by simp [hrow])]
  | cons a l ih =>
    intro h
    simp only [List.any_cons, Bool.or_eq_false_iff] at h
    rw [List.cons_append, List.find?_cons_of_neg _ (by simpa using h.1)]
    exact ih h.2

theorem find?_save_self (db : Db) (issuer : VciIssuer) (e : Bool) (now : Nat) :
    (saveVciIssuer db issuer e now).1.issuers.find? (fun r => r.iss = issuer.iss) =
      some { iss := issuer.iss, name := issuer.name, website := issuer.website,
             canonicalIss := issuer.canonicalIss, error := e, updatedAt := now } := by
  unfold saveVciIssuer
  by_cases hany : db.issuers.any (fun r => r.iss = issuer.iss) = true
  · rw [if_pos hany]
    exact find?_upsert_self issuer.iss _ rfl db.issuers hany
  · rw [if_neg hany]
    exact find?_append_self issuer.iss _ rfl db.issuers (by simpa using hany)

theorem find?_upsert_other (iss iss' : String) (row : IssuerRow) (hne : iss' ≠ iss)
    (hrow : row.iss = iss) :
    ∀ l : List IssuerRow,
    (l.map (fun r => if r.iss = iss then row else r)).find? (fun r => r.iss = iss') =
      l.find? (fun r => r.iss = iss') := by
  intro l
  induction l with
  | nil => rfl
  | cons a l ih =>
    rw [List.map_cons]
    by_cases ha : a.iss = iss
    · rw [if_pos ha,
        List.find?_cons_of_neg _ (by simp [hrow]; exact fun hc => hne hc.symm),
        List.find?_cons_of_neg _ (by simp [ha]; exact fun hc => hne hc.symm), ih]
    · by_cases hp : a.iss = iss'
      · rw [if_neg ha, List.find?_cons_of_pos _ (by simp [hp]),
          List.find?_cons_of_pos _ (by simp [hp])]
      · rw [if_neg ha, List.find?_cons_of_neg _ (by simp [hp]),
          List.find?_cons_of_neg _ (by simp [hp]), ih]

theorem find?_append_other (iss' : String) (row : IssuerRow) (hne : row.iss ≠ iss') :
    ∀ l : List IssuerRow,
    (l ++ [row]).find? (fun r => r.iss = iss') = l.find? (fun r => r.iss = iss') := by
  intro l
  induction l with
  | nil =>
    rw [List.nil_append, List.find?_cons_of_neg _ (by simpa using hne)]
  | cons a l ih =>
    by_cases hp : a.iss = iss'
    · rw [List.cons_append, List.find?_cons_of_pos _ (by simp [hp]),
        List.find?_cons_of_pos _ (by simp [hp])]
    · rw [List.cons_append, List.find?_cons_of_neg _ (by simp [hp]),
        List.find?_cons_of_neg _ (by simp [hp]), ih]

theorem find?_save_other (db : Db) (issuer : VciIssuer) (e : Bool) (now : Nat)
    (iss' : String) (hne : iss' ≠ issuer.iss) :
    (saveVciIssuer db issuer e now).1.issuers.find? (fun r => r.iss = iss') =
      db.issuers.find? (fun r => r.iss = iss') := by
  unfold saveVciIssuer
  by_cases hany : db.issuers.any (fun r => r.iss = issuer.iss) = true
  · rw [if_pos hany]
    exact find?_upsert_other issuer.iss iss' _ hne rfl db.issuers
  · rw [if_neg hany]
    exact find?_append_other iss' _ (fun hc => hne hc.symm) db.issuers

theorem saveVciIssuer_keys (db : Db) (issuer : VciIssuer) (e : Bool) (now : Nat) :
    (saveVciIssuer db issuer e now).1.keys = db.keys := by
  unfold saveVciIssuer
  split <;> rfl

theorem upsertKey_issuers (db : Db) (a b : String) (c : Jwk) :
    (upsertKey db a b c).issuers = db.issuers := by
  unfold upsertKey
  split <;> rfl

theorem foldl_upsertKey_issuers (id : String) :
    ∀ (ks : List (Option String × Jwk)) (d : Db),
    (ks.foldl (fun d k => upsertKey d id (k.1.getD "") k.2) d).issuers = d.issuers := by
  intro ks
  induction ks with
  | nil => intro d; rfl
  | cons k ks ih =>
    intro d
    rw [List.foldl_cons, ih, upsertKey_issuers]

theorem issuerFresh_eq_of_issuers (d1 d2 : Db) (h : d1.issuers = d2.issuers)
    (iss : String) (now : Nat) : issuerFresh d1 iss now = issuerFresh d2 iss now := by
  rw [issuerFresh, issuerFresh, h]

theorem issuerFresh_save_self (db : Db) (issuer : VciIssuer) (e : Bool) (now : Nat) :
    issuerFresh (saveVciIssuer db issuer e now).1 issuer.iss now = true := by
  rw [issuerFresh, find?_save_self]
  simp [sevenDays, Nat.sub_self]

theorem issuerFresh_save_other (db : Db) (issuer : VciIssuer) (e : Bool) (now : Nat)
    (iss' : String) (hne : iss' ≠ issuer.iss) :
    issuerFresh (saveVciIssuer db issuer e now).1 iss' now = issuerFresh db iss' now := by
  rw [issuerFresh, issuerFresh, find?_save_other db issuer e now iss' hne]

theorem updateGo_fresh (issuer : VciIssuer) (now : Nat) (fetch : FetchOutcome)
    (db : Db) (meta : VciIssuerMeta) (db2 : Db) (m2 : VciIssuerMeta)
    (h : updateGo issuer now fetch db meta = .ok (db2, m2)) :
    issuerFresh db2 issuer.iss now = true ∧
    ∀ iss', iss' ≠ issuer.iss →
      issuerFresh db2 iss' now = issuerFresh db iss' now := by
  cases fetch with
  | netErr =>
    simp only [updateGo] at h
    injection h with h'
    rw [Prod.mk.injEq] at h'
    obtain ⟨hdb, -⟩ := h'
    subst hdb
    exact ⟨issuerFresh_save_self db issuer true now,
      fun iss' hne => issuerFresh_save_other db issuer true now iss' hne⟩
  | badJson =>
    simp only [updateGo] at h
    injection h with h'
    rw [Prod.mk.injEq] at h'
    obtain ⟨hdb, -⟩ := h'
    subst hdb
    exact ⟨issuerFresh_save_self db issuer true now,
      fun iss' hne => issuerFresh_save_other db issuer true now iss' hne⟩
  | fetched ks =>
    simp only [updateGo] at h
    by_cases hks : ks.any (fun k => k.1 = none) = true
    · rw [if_pos hks] at h
      cases h
    · rw [if_neg hks] at h
      injection h with h'
      rw [Prod.mk.injEq] at h'
      obtain ⟨hdb, -⟩ := h'
      subst hdb
      have hiss := foldl_upsertKey_issuers (saveVciIssuer db issuer false now).2 ks
        (saveVciIssuer db issuer false now).1
      constructor
      · rw [issuerFresh_eq_of_issuers _ (saveVciIssuer db issuer false now).1 hiss]
        exact issuerFresh_save_self db issuer false now
      · intro iss' hne
        rw [issuerFresh_eq_of_issuers _ (saveVciIssuer db issuer false now).1 hiss]
        exact issuerFresh_save_other db issuer false now iss' hne

theorem update_fresh (db : Db) (issuer : VciIssuer) (ic : Bool) (now : Nat)
    (fetch : FetchOutcome) (db2 : Db) (meta : VciIssuerMeta)
    (h : updateVciIssuer db issuer ic now fetch = .ok (db2, meta)) :
    issuerFresh db2 issuer.iss now = true ∧
    ∀ iss', issuerFresh db iss' now = true → issuerFresh db2 iss' now = true := by
  cases hrec : db.issuers.find? (fun r => r.iss = issuer.iss) with
  | none =>
    simp only [updateVciIssuer, hrec] at h
    obtain ⟨hself, hother⟩ := updateGo_fresh issuer now fetch db _ db2 meta h
    refine ⟨hself, fun iss' hf => ?_⟩
    by_cases hne : iss' = issuer.iss
    · rw [hne]
      exact hself
    · rw [hother iss' hne]
      exact hf
  | some r =>
    simp only [updateVciIssuer, hrec] at h
    by_cases hcond : (ic = true) ∨ now - r.updatedAt > sevenDays
    · rw [if_pos hcond] at h
      obtain ⟨hself, hother⟩ := updateGo_fresh issuer now fetch db _ db2 meta h
      refine ⟨hself, fun iss' hf => ?_⟩
      by_cases hne : iss' = issuer.iss
      · rw [hne]
        exact hself
      · rw [hother iss' hne]
        exact hf
    · rw [if_neg hcond] at h
      injection h with h'
      rw [Prod.mk.injEq] at h'
      obtain ⟨hdb, -⟩ := h'
      subst hdb
      refine ⟨?_, fun _ hf => hf⟩
      rw [issuerFresh, hrec]
      have hnst : ¬ now - r.updatedAt > sevenDays := fun hc => hcond (Or.inr hc)
      simp [hnst]

theorem update_of_fresh (db : Db) (issuer : VciIssuer) (now : Nat)
    (fetch : FetchOutcome) (hf : issuerFresh db issuer.iss now = true) :
    ∃ m, updateVciIssuer db issuer false now fetch = .ok (db, m) := by
  rw [issuerFresh] at hf
  cases hrec : db.issuers.find? (fun r => r.iss = issuer.iss) with
  | none =>
    rw [hrec] at hf
    cases hf
  | some r =>
    rw [hrec] at hf
    have hns : ¬((false = true) ∨ now - r.updatedAt > sevenDays) := by
      rintro (hc | hc)
      · exact Bool.false_ne_true hc
      · simp only [Bool.not_eq_true', decide_eq_false_iff_not] at hf
        exact hf hc
    refine ⟨⟨issuer.name, issuer.iss, r.error, keyCount db issuer.iss, none⟩, ?_⟩
    simp only [updateVciIssuer, hrec]
    rw [if_neg hns]

theorem runRefreshFrom_fresh :
    ∀ (ps : List (VciIssuer × FetchOutcome)) (ic : Bool) (now : Nat) (db : Db)
      (ms : List VciIssuerMeta) (db1 : Db) (ms1 : List VciIssuerMeta),
    runRefreshFrom ic now db ms ps = .ok (db1, ms1) →
    (∀ iss', issuerFresh db iss' now = true → issuerFresh db1 iss' now = true) ∧
    (∀ p ∈ ps, issuerFresh db1 p.1.iss now = true) := by
  intro ps
  induction ps with
  | nil =>
    intro ic now db ms db1 ms1 h
    injection h with h'
    rw [Prod.mk.injEq] at h'
    obtain ⟨hdb, -⟩ := h'
    subst hdb
    exact ⟨fun _ hf => hf, by simp⟩
  | cons p ps ih =>
    intro ic now db ms db1 ms1 h
    rw [runRefreshFrom] at h
    cases hu : updateVciIssuer db p.1 ic now p.2 with
    | error e =>
      rw [hu] at h
      cases h
    | ok step =>
      rw [hu] at h
      obtain ⟨hpres, hall⟩ := ih ic now step.1 (ms ++ [step.2]) db1 ms1 h
      obtain ⟨hself, hother⟩ := update_fresh db p.1 ic now p.2 step.1 step.2 hu
      constructor
      · intro iss' hf
        exact hpres iss' (hother iss' hf)
      · intro q hq
        rcases List.mem_cons.mp hq with rfl | hmem
        · exact hpres q.1.iss hself
        · exact hall q hmem

theorem runRefreshFrom_noop :
    ∀ (ps : List (VciIssuer × FetchOutcome)) (now : Nat) (db : Db)
      (ms : List VciIssuerMeta),
    (∀ p ∈ ps, issuerFresh db p.1.iss now = true) →
    ∃ ms2, runRefreshFrom false now db ms ps = .ok (db, ms2) := by
  intro ps
  induction ps with
  | nil =>
    intro now db ms _
    exact ⟨ms, rfl⟩
  | cons p ps ih =>
    intro now db ms hall
    obtain ⟨m, hm⟩ := update_of_fresh db p.1 now p.2 (hall p (List.mem_cons_self p ps))
    rw [runRefreshFrom, hm]
    exact ih now db (ms ++ [m]) (fun q hq => hall q (List.mem_cons_of_mem _ hq))

/-- C7 (corrected): when the cached row is absent, stale or bypassed, a
network failure or invalid-JSON response while fetching an issuer's JWKS
returns normally (so the overall refresh is not aborted), persists the issuer
row with `error = true`, and leaves the key table untouched — in particular
previously stored key rows for that issuer remain, so key rows are *not*
restricted to issuers whose most recent refresh succeeded (see the
counterexample). -/
theorem claim_C7_amended (db : Db) (issuer : VciIssuer) (ic : Bool) (now : Nat)
    (fetch : FetchOutcome) (hf : fetch = .netErr ∨ fetch = .badJson)
    (ha : refreshAttempted db issuer.iss ic now = true) :
    ∃ db2 meta, updateVciIssuer db issuer ic now fetch = .ok (db2, meta) ∧
      meta.error = true ∧ db2.keys = db.keys ∧
      db2.issuers.find? (fun r => r.iss = issuer.iss) =
        some { iss := issuer.iss, name := issuer.name, website := issuer.website,
               canonicalIss := issuer.canonicalIss, error := true,
               updatedAt := now } := by
  have main : ∀ meta0 : VciIssuerMeta,
      ∃ meta, updateGo issuer now fetch db meta0 =
          .ok ((saveVciIssuer db issuer true now).1, meta) ∧ meta.error = true := by
    intro meta0
    rcases hf with rfl | rfl
    · exact ⟨_, rfl, rfl⟩
    · exact ⟨_, rfl, rfl⟩
  cases hrec : db.issuers.find? (fun r => r.iss = issuer.iss) with
  | none =>
    obtain ⟨meta, hgo, herr⟩ := main
      { name := issuer.name, iss := issuer.iss, error := false, keys := 0,
        jwkSet := none }
    refine ⟨(saveVciIssuer db issuer true now).1, meta, ?_, herr,
      saveVciIssuer_keys db issuer true now, find?_save_self db issuer true now⟩
    simp only [updateVciIssuer, hrec]
    exact hgo
  | some r =>
    have hcond : (ic = true) ∨ now - r.updatedAt > sevenDays := by
      rw [refreshAttempted, hrec] at ha
      simpa using ha
    obtain ⟨meta, hgo, herr⟩ := main
      { name := issuer.name, iss := issuer.iss, error := false,
        keys := keyCount db issuer.iss, jwkSet := none }
    refine ⟨(saveVciIssuer db issuer true now).1, meta, ?_, herr,
      saveVciIssuer_keys db issuer true now, find?_save_self db issuer true now⟩
    simp only [updateVciIssuer, hrec]
    rw [if_pos hcond]
    exact hgo

/-- C7 counterexample: a successful refresh at time 0 stores a key row for
the issuer; a failed refresh 8 days later marks the issuer row `error = true`
but the key row survives — so an Issuer Key row exists for an issuer whose
most recent refresh failed, and the reported key count is 1, not zero. -/
theorem claim_C7_counterexample :
    updateVciIssuer {} issuerC7 false 0 (.fetched [(some "k1", 7)]) =
      .ok (dbC7a, ⟨"Issuer A", "https://a.example", false, 1, some [(some "k1", 7)]⟩) ∧
    updateVciIssuer dbC7a issuerC7 false tC7 .netErr =
      .ok (dbC7b, ⟨"Issuer A", "https://a.example", true, 1, none⟩) ∧
    dbC7b.keys = [{ issuerId := "https://a.example", keyId := "k1", data := 7 }] ∧
    dbC7b.issuers.all (fun r => r.error) = true := by
  refine ⟨?_, ?_, rfl, rfl⟩ <;> rfl

/-- C7 witness: from an empty store, a network failure for an issuer returns
normally with `error = true`, no key rows, and an `error = true` issuer
row. -/
theorem claim_C7_witness :
    refreshAttempted ({} : Db) issuerC7.iss false 0 = true ∧
    (∃ db2 meta, updateVciIssuer {} issuerC7 false 0 .netErr = .ok (db2, meta) ∧
      meta.error = true ∧ db2.keys = ({} : Db).keys ∧
      db2.issuers.find? (fun r => r.iss = issuerC7.iss) =
        some { iss := issuerC7.iss, name := issuerC7.name,
               website := issuerC7.website, canonicalIss := issuerC7.canonicalIss,
               error := true, updatedAt := 0 }) :=
  ⟨rfl, claim_C7_amended {} issuerC7 false 0 .netErr (Or.inl rfl) rfl⟩

/-- C8 (confirmed): if a key-directory refresh over a given issuer list
completes successfully at time `t`, immediately re-running it (same list, no
remote changes, `ignoreCache = false`) finds every issuer row fresh,
short-circuits on the cached data, performs no writes, and leaves the
persisted rows exactly as the first run left them. -/
theorem claim_C8_idempotent (db db1 : Db)
    (issuers : List (VciIssuer × FetchOutcome)) (t : Nat)
    (metas : List VciIssuerMeta)
    (h1 : runRefresh db issuers false t = .ok (db1, metas)) :
    ∃ metas2, runRefresh db1 issuers false t = .ok (db1, metas2) := by
  obtain ⟨-, hall⟩ := runRefreshFrom_fresh issuers false t db [] db1 metas h1
  exact runRefreshFrom_noop issuers t db1 [] hall

/-- C8 witness: refreshing a one-issuer directory from the empty store and
then re-running the refresh leaves the store unchanged. -/
theorem claim_C8_witness :
    runRefresh ({} : Db) listC8 false 5 = .ok (dbC8a,
      [⟨"Issuer B", "https://b.example", false, 1, some [(some "k1", 3)]⟩]) ∧
    ∃ metas2, runRefresh dbC8a listC8 false 5 = .ok (dbC8a, metas2) :=
  ⟨rfl, claim_C8_idempotent {} dbC8a listC8 5 _ rfl⟩

end BarcodeScanner
